import Mathlib

/-!
# Verification of the secret-caching core

A shallow embedding of the caching/refresh core of an in-process secret
cache (eviction container with LRU policy, refresh/backoff state machine,
secret-level and version-level cache entries, and the top-level facade),
together with proofs about the embedded operations.

Modelling conventions:
* Mutable state is passed explicitly; every operation returns its updated state.
* The backing service, its call counters and the random source live in a
  `World` value; `time.Now()` becomes an explicit `now : Int` argument
  (nanoseconds since epoch), one per top-level call.
* Go's `nil`-pointer outcomes are `none`; fallible results are `Except`.
* The optional cache hook is modelled in its absent (identity) configuration,
  which is the only configuration the verified claims mention.
* Machine `int64` values are modelled as `Int`; no claim here depends on
  64-bit wrap-around, and all arithmetic stays far from `2^63`.
-/

namespace SecretCache

/-- Error kinds surfaced by the cache: the three concrete error structs of the
source plus an opaque constructor for errors produced by the backing service. -/
inductive SMError where
  | invalidConfig : String → SMError
  | versionNotFound : String → SMError
  | invalidOperation : String → SMError
  | backing : Nat → SMError
deriving DecidableEq, Repr

/-- The payload of one secret version (`GetSecretValueOutput`); only the two
fields the cache core reads are modelled. -/
structure GetSecretValueOutput where
  secretString : Option String := none
  secretBinary : Option (List Nat) := none
deriving DecidableEq, Repr

/-- Secret-level metadata (`DescribeSecretOutput`): the version-id to stage-list
mapping, which may itself be absent. -/
structure DescribeSecretOutput where
  versionIdsToStages : Option (List (String × List String)) := none
deriving DecidableEq, Repr

/-! ## Eviction container (`lruCache`)

The Go implementation keeps a key-indexed map plus a doubly linked recency
list with head = most recently used.  Both are represented here by one
association list ordered by recency (head = most recent); the map is the
list's key set. -/

/-- LRU cache state: `entries` ordered most-recently-used first. -/
structure LruCache (α : Type) where
  entries : List (String × α)
  maxSize : Int
deriving Repr

/-- Key lookup in the entry list (the `cacheMap` read). -/
def lruLookup {α : Type} : List (String × α) → String → Option α
  | [], _ => none
  | e :: rest, k => if e.1 = k then some e.2 else lruLookup rest k

/-- Remove the entry with the given key (the `unlink` of that node). -/
def lruRemove {α : Type} : List (String × α) → String → List (String × α)
  | [], _ => []
  | e :: rest, k => if e.1 = k then rest else e :: lruRemove rest k

/-- `lruCache.get`: on a hit the entry is promoted to the head of the recency
list (`updateHead`); a miss has no side effect. -/
def lruGet {α : Type} (l : LruCache α) (key : String) : Option α × LruCache α :=
  match lruLookup l.entries key with
  | none => (none, l)
  | some v => (some v, { l with entries := (key, v) :: lruRemove l.entries key })

/-- `lruCache.putIfAbsent`: no-op returning `false` on an existing key;
otherwise insert at the head, and if the count now exceeds `maxSize` evict
the tail entry. -/
def lruPutIfAbsent {α : Type} (l : LruCache α) (key : String) (v : α) :
    Bool × LruCache α :=
  match lruLookup l.entries key with
  | some _ => (false, l)
  | none =>
    let mid := (key, v) :: l.entries
    if (mid.length : Int) > l.maxSize then
      (true, { l with entries := mid.dropLast })
    else
      (true, { l with entries := mid })

/-- `newLRUCache`. -/
def newLRUCache (α : Type) (maxSize : Int) : LruCache α := ⟨[], maxSize⟩

/-- In-place update of a stored value, modelling a write through the pointer
the container aliases (recency order is untouched). -/
def lruSetData {α : Type} (l : LruCache α) (key : String) (v : α) : LruCache α :=
  { l with entries := l.entries.map fun e => if e.1 = key then (key, v) else e }

/-! ## Configuration -/

def DefaultMaxCacheSize : Int := 1024

def DefaultCacheItemTTL : Int := 3600000000000

def DefaultVersionStage : String := "AWSCURRENT"

/-- `CacheConfig` (the hook is modelled in its absent, identity configuration). -/
structure CacheConfig where
  maxCacheSize : Int := DefaultMaxCacheSize
  cacheItemTTL : Int := DefaultCacheItemTTL
  versionStage : String := DefaultVersionStage
deriving DecidableEq, Repr

/-! ## Shared refresh state (`cacheObject`) -/

def exceptionRetryDelayBase : Int := 1

def exceptionRetryGrowthFactor : Int := 2

def exceptionRetryDelayMax : Int := 3600

/-- Base cache object shared by secret-level and version-level entries; `δ` is
the payload type held in `data`. -/
structure CacheObj (δ : Type) where
  config : CacheConfig
  secretId : String
  err : Option SMError := none
  errorCount : Nat := 0
  refreshNeeded : Bool := false
  nextRetryTime : Int := 0
  data : Option δ := none

/-- `cacheObject.isRefreshNeeded`, with the source's sequential branch
structure. -/
def cacheObjIsRefreshNeeded {δ : Type} (o : CacheObj δ) (now : Int) : Bool :=
  if o.refreshNeeded then true
  else if o.err.isNone then false
  else if o.nextRetryTime = 0 then true
  else decide (o.nextRetryTime ≤ now)

/-- The exponential backoff delay recorded after the `errorCount`-th
consecutive failure: `min(base * growthFactor^errorCount, maxDelay)`.
(The float `math.Pow`/`math.Min` pipeline is exact on this integer range.
The source applies this delay as nanoseconds in one file and milliseconds in
another; the unit is left abstract here since no verified claim depends on
it.) -/
def backoffDelay (errorCount : Nat) : Int :=
  min (exceptionRetryDelayBase * exceptionRetryGrowthFactor ^ errorCount)
    exceptionRetryDelayMax

/-! ## The backing service world

Scripted responses indexed by per-operation call counters; the counters double
as the observable record of how many network calls were issued. -/

/-- Scripted backing service: the response of the `n`-th `DescribeSecret` call
and of the `n`-th `GetSecretValue` call. -/
structure Backing where
  describe : Nat → String → Except SMError DescribeSecretOutput
  getValue : Nat → String → String → Except SMError GetSecretValueOutput

/-- The world: backing service, its call counters, and the random source
(the `n`-th value drawn from the shared generator). -/
structure World where
  backing : Backing
  describeCalls : Nat := 0
  getValueCalls : Nat := 0
  randCalls : Nat := 0
  rand : Nat → Nat

/-- Issue a `DescribeSecret` call. -/
def callDescribeSecret (w : World) (secretId : String) :
    Except SMError DescribeSecretOutput × World :=
  (w.backing.describe w.describeCalls secretId,
    { w with describeCalls := w.describeCalls + 1 })

/-- Issue a `GetSecretValue` call. -/
def callGetSecretValue (w : World) (secretId versionId : String) :
    Except SMError GetSecretValueOutput × World :=
  (w.backing.getValue w.getValueCalls secretId versionId,
    { w with getValueCalls := w.getValueCalls + 1 })

/-- Draw the next raw value from the random source. -/
def nextRand (w : World) : Nat × World :=
  (w.rand w.randCalls, { w with randCalls := w.randCalls + 1 })

/-- `rand.Int63n(n)` for `n ≥ 1`: the drawn raw value reduced into `[0, n)`. -/
def int63n (r : Nat) (n : Int) : Int := ((r % n.toNat : Nat) : Int)

/-! ## Version entry (`cacheVersion`) -/

/-- Version-level cache entry state. -/
structure CacheVersionState where
  versionId : String
  obj : CacheObj GetSecretValueOutput

/-- `newCacheVersion`. -/
def newCacheVersion (config : CacheConfig) (secretId versionId : String) :
    CacheVersionState :=
  { versionId, obj := { config, secretId, refreshNeeded := true } }

/-- `cacheVersion.isRefreshNeeded`. -/
def versionIsRefreshNeeded (cv : CacheVersionState) (now : Int) : Bool :=
  cacheObjIsRefreshNeeded cv.obj now

/-- `cacheVersion.executeRefresh`: fetch the payload for this exact version. -/
def versionExecuteRefresh (cv : CacheVersionState) (w : World) :
    Except SMError GetSecretValueOutput × World :=
  callGetSecretValue w cv.obj.secretId cv.versionId

/-- `cacheVersion.refresh`. -/
def versionRefresh (cv : CacheVersionState) (w : World) (now : Int) :
    CacheVersionState × World :=
  if ¬ versionIsRefreshNeeded cv now then (cv, w)
  else
    let cv1 : CacheVersionState :=
      { cv with obj := { cv.obj with refreshNeeded := false } }
    let (res, w1) := versionExecuteRefresh cv1 w
    match res with
    | .error e =>
      let n := cv1.obj.errorCount + 1
      ({ cv1 with obj := { cv1.obj with
          errorCount := n, err := some e,
          nextRetryTime := now + backoffDelay n } }, w1)
    | .ok result =>
      ({ cv1 with obj := { cv1.obj with
          data := some result, err := none,
          errorCount := 0 } }, w1)

/-- `cacheVersion.getSecretValue`: refresh if due, then return the current
payload together with the current recorded error. -/
def versionGetSecretValue (cv : CacheVersionState) (w : World) (now : Int) :
    (Option GetSecretValueOutput × Option SMError) × CacheVersionState × World :=
  let (cv1, w1) := versionRefresh cv w now
  ((cv1.obj.data, cv1.obj.err), cv1, w1)

/-! ## Secret entry (`secretCacheItem`) -/

/-- Secret-level cache entry state: base object plus the jittered schedule and
the nested version container (fixed capacity 10). -/
structure SecretCacheItemState where
  versions : LruCache CacheVersionState
  nextRefreshTime : Int
  obj : CacheObj DescribeSecretOutput

/-- `newSecretCacheItem`: next refresh time is "now", refresh needed. -/
def newSecretCacheItem (config : CacheConfig) (secretId : String) (now : Int) :
    SecretCacheItemState :=
  { versions := newLRUCache CacheVersionState 10,
    nextRefreshTime := now,
    obj := { config, secretId, refreshNeeded := true } }

/-- `secretCacheItem.isRefreshNeeded`: the shared predicate, or the jittered
schedule having elapsed. -/
def itemIsRefreshNeeded (ci : SecretCacheItemState) (now : Int) : Bool :=
  if cacheObjIsRefreshNeeded ci.obj now then true
  else decide (ci.nextRefreshTime ≤ now)

/-- `secretCacheItem.getVersionId` on the current metadata: scan the
version-to-stages mapping for the first version whose stage list contains the
requested stage.  (The Go map's iteration order is unspecified; the mapping is
modelled as an association list scanned in order, which is observationally
equivalent because the backing service guarantees at most one version per
stage.) -/
def getVersionIdOf (dataOpt : Option DescribeSecretOutput)
    (versionStage : String) : Option String :=
  match dataOpt with
  | none => none
  | some result =>
    match result.versionIdsToStages with
    | none => none
    | some m =>
      (m.find? fun p => p.2.any fun stage => decide (stage = versionStage)).map
        (·.1)

/-- The jittered TTL: `maxTTL` itself when `maxTTL < 2`, else
`Int63n(maxTTL/2) + maxTTL/2` for raw random value `r`. -/
def jitteredTTL (maxTTL : Int) (r : Nat) : Int :=
  if maxTTL < 2 then maxTTL else int63n r (maxTTL / 2) + maxTTL / 2

/-- The effective TTL used by `secretCacheItem.executeRefresh`: the configured
`cacheItemTTL`, with the fixed default substituted when it is 0. -/
def effectiveTTL (cfg : CacheConfig) : Int :=
  if cfg.cacheItemTTL = 0 then DefaultCacheItemTTL else cfg.cacheItemTTL

/-- The message of the configuration error raised on a negative TTL. -/
def invalidTTLMsg : String := "cannot set negative ttl on cache"

/-- `secretCacheItem.executeRefresh`: the `DescribeSecret` call is issued
first; the TTL is validated afterwards (negative TTL fails the refresh with a
configuration error), and otherwise the jittered next refresh time is
scheduled before the client's own error, if any, is propagated. -/
def itemExecuteRefresh (ci : SecretCacheItemState) (w : World) (now : Int) :
    Except SMError DescribeSecretOutput × SecretCacheItemState × World :=
  let (res, w1) := callDescribeSecret w ci.obj.secretId
  let maxTTL := effectiveTTL ci.obj.config
  if maxTTL < 0 then
    (.error (.invalidConfig invalidTTLMsg), ci, w1)
  else if maxTTL < 2 then
    (res, { ci with nextRefreshTime := now + maxTTL }, w1)
  else
    let (r, w2) := nextRand w1
    (res, { ci with nextRefreshTime := now + jitteredTTL maxTTL r }, w2)

/-- `secretCacheItem.refresh`. -/
def itemRefresh (ci : SecretCacheItemState) (w : World) (now : Int) :
    SecretCacheItemState × World :=
  if ¬ itemIsRefreshNeeded ci now then (ci, w)
  else
    let ci1 : SecretCacheItemState :=
      { ci with obj := { ci.obj with refreshNeeded := false } }
    let (res, ci2, w1) := itemExecuteRefresh ci1 w now
    match res with
    | .error e =>
      let n := ci2.obj.errorCount + 1
      ({ ci2 with obj := { ci2.obj with
          errorCount := n, err := some e,
          nextRetryTime := now + backoffDelay n } }, w1)
    | .ok result =>
      ({ ci2 with obj := { ci2.obj with
          data := some result, err := none,
          errorCount := 0 } }, w1)

/-- `secretCacheItem.getVersion`: resolve the stage to a version id, then look
the version up in the nested container, inserting a fresh entry on a miss and
re-reading to obtain the canonical stored instance.  The first component
mirrors the Go `(pointer, found)` pair: `(true, none)` is a found flag with a
`nil` pointer (possible only if the container immediately evicted the
insertion). -/
def itemGetVersion (ci : SecretCacheItemState) (versionStage : String) :
    (Bool × Option CacheVersionState) × SecretCacheItemState :=
  match getVersionIdOf ci.obj.data versionStage with
  | none => ((false, none), ci)
  | some versionId =>
    let gr := lruGet ci.versions versionId
    match gr.1 with
    | some cv => ((true, some cv), { ci with versions := gr.2 })
    | none =>
      let fresh := newCacheVersion ci.obj.config ci.obj.secretId versionId
      let pr := lruPutIfAbsent gr.2 versionId fresh
      let gr2 := lruGet pr.2 versionId
      ((true, gr2.1), { ci with versions := gr2.2 })

/-- The stage-defaulting prologue of `secretCacheItem.getSecretValue`. -/
def resolveVersionStage (versionStage configStage : String) : String :=
  if versionStage = "" ∧ configStage = "" then DefaultVersionStage
  else if versionStage = "" ∧ ¬ configStage = "" then configStage
  else versionStage

/-- `secretCacheItem.getSecretValue`: refresh if due, resolve the version, and
delegate to it; when resolution fails return the recorded error if any, else a
version-not-found error.  The outer `Option` is `none` where the Go code would
dereference a `nil` `*cacheVersion`. -/
def itemGetSecretValue (ci : SecretCacheItemState) (w : World) (now : Int)
    (versionStage : String) :
    Option (Option GetSecretValueOutput × Option SMError) ×
      SecretCacheItemState × World :=
  let stage := resolveVersionStage versionStage ci.obj.config.versionStage
  let rw := itemRefresh ci w now
  match itemGetVersion rw.1 stage with
  | ((false, _), ci2) =>
    match ci2.obj.err with
    | some e => (some (none, some e), ci2, rw.2)
    | none =>
      (some (none, some (.versionNotFound
        ("could not find secret version for versionStage " ++ stage))),
        ci2, rw.2)
  | ((true, none), ci2) => (none, ci2, rw.2)
  | ((true, some cv), ci2) =>
    let gv := versionGetSecretValue cv rw.2 now
    (some gv.1,
      { ci2 with versions := lruSetData ci2.versions gv.2.1.versionId gv.2.1 },
      gv.2.2)

/-! ## Cache facade (`Cache`) -/

/-- Facade state: the top-level container of secret entries plus the
configuration. -/
structure CacheState where
  lru : LruCache SecretCacheItemState
  config : CacheConfig

/-- `New` with an injected client: configuration recorded, container sized to
`maxCacheSize`. -/
def newCache (config : CacheConfig) : CacheState :=
  { lru := newLRUCache SecretCacheItemState config.maxCacheSize, config }

/-- `Cache.getCachedSecret`: get, and on a miss construct + `putIfAbsent` +
re-get; `none` models the Go function returning a `nil` item pointer. -/
def getCachedSecret (c : CacheState) (secretId : String) (now : Int) :
    Option SecretCacheItemState × CacheState :=
  let gr := lruGet c.lru secretId
  match gr.1 with
  | some item => (some item, { c with lru := gr.2 })
  | none =>
    let item := newSecretCacheItem c.config secretId now
    let pr := lruPutIfAbsent gr.2 secretId item
    let gr2 := lruGet pr.2 secretId
    (gr2.1, { c with lru := gr2.2 })

/-- `Cache.GetSecretStringWithStage`.  The outer `Option` is `none` where the
Go code would panic on a `nil` dereference (nil secret entry or nil payload
with no error). -/
def GetSecretStringWithStage (c : CacheState) (w : World) (now : Int)
    (secretId versionStage : String) :
    Option (Except SMError String) × CacheState × World :=
  match getCachedSecret c secretId now with
  | (none, c1) => (none, c1, w)
  | (some item, c1) =>
    let r := itemGetSecretValue item w now versionStage
    let c2 : CacheState := { c1 with lru := lruSetData c1.lru secretId r.2.1 }
    match r.1 with
    | none => (none, c2, r.2.2)
    | some (outOpt, errOpt) =>
      match errOpt with
      | some e => (some (.error e), c2, r.2.2)
      | none =>
        match outOpt with
        | none => (none, c2, r.2.2)
        | some out =>
          match out.secretString with
          | none => (some (.error (.invalidOperation
              "requested secret version does not contain SecretString")),
              c2, r.2.2)
          | some s => (some (.ok s), c2, r.2.2)

/-- `Cache.GetSecretString`: delegates with the fixed default stage literal. -/
def GetSecretString (c : CacheState) (w : World) (now : Int)
    (secretId : String) : Option (Except SMError String) × CacheState × World :=
  GetSecretStringWithStage c w now secretId DefaultVersionStage

/-- `Cache.GetSecretBinaryWithStage`. -/
def GetSecretBinaryWithStage (c : CacheState) (w : World) (now : Int)
    (secretId versionStage : String) :
    Option (Except SMError (List Nat)) × CacheState × World :=
  match getCachedSecret c secretId now with
  | (none, c1) => (none, c1, w)
  | (some item, c1) =>
    let r := itemGetSecretValue item w now versionStage
    let c2 : CacheState := { c1 with lru := lruSetData c1.lru secretId r.2.1 }
    match r.1 with
    | none => (none, c2, r.2.2)
    | some (outOpt, errOpt) =>
      match errOpt with
      | some e => (some (.error e), c2, r.2.2)
      | none =>
        match outOpt with
        | none => (none, c2, r.2.2)
        | some out =>
          match out.secretBinary with
          | none => (some (.error (.invalidOperation
              "requested secret version does not contain SecretBinary")),
              c2, r.2.2)
          | some b => (some (.ok b), c2, r.2.2)

/-- `Cache.GetSecretBinary`: delegates with the fixed default stage literal. -/
def GetSecretBinary (c : CacheState) (w : World) (now : Int)
    (secretId : String) :
    Option (Except SMError (List Nat)) × CacheState × World :=
  GetSecretBinaryWithStage c w now secretId DefaultVersionStage

/-! ## Supporting definitions: fixtures, runners and the trace semantics -/

/-- Iterated `cacheVersion.getSecretValue` calls at the given times. -/
def runVersionGetSecretValue :
    CacheVersionState → World → List Int → CacheVersionState × World
  | cv, w, [] => (cv, w)
  | cv, w, t :: ts =>
    let r := versionGetSecretValue cv w t
    runVersionGetSecretValue r.2.1 r.2.2 ts

def sampleMeta : DescribeSecretOutput := ⟨some [("v1", ["AWSCURRENT"])]⟩

def sampleOutS : GetSecretValueOutput := { secretString := some "s3cret" }

def okBacking : Backing :=
  { describe := fun _ _ => .ok sampleMeta
    getValue := fun _ _ _ => .ok sampleOutS }

def sampleWorld : World := { backing := okBacking, rand := fun _ => 0 }

/-- A version entry after one successful refresh. -/
def steadyCvSample : CacheVersionState :=
  { versionId := "v1",
    obj := { config := {}, secretId := "sid", err := none, errorCount := 0,
             refreshNeeded := false, nextRetryTime := 0,
             data := some sampleOutS } }

/-- Backing metadata whose single version carries only the stage "CUSTOM". -/
def customMeta : DescribeSecretOutput := ⟨some [("v1", ["CUSTOM"])]⟩

def customBacking : Backing :=
  { describe := fun _ _ => .ok customMeta
    getValue := fun _ _ _ => .ok sampleOutS }

def customWorld : World := { backing := customBacking, rand := fun _ => 0 }

/-- A cache configured with the non-empty default stage "CUSTOM". -/
def customStageCache : CacheState := newCache { versionStage := "CUSTOM" }

def sampleOutB : GetSecretValueOutput := { secretBinary := some [1, 0, 1] }

def failBacking : Backing :=
  { describe := fun _ _ => .error (.backing 7)
    getValue := fun _ _ _ => .ok sampleOutS }

def failWorld : World := { backing := failBacking, rand := fun _ => 0 }

/-- A secret entry with stale metadata, a cached string payload, and a refresh
due at time 0. -/
def staleItemS : SecretCacheItemState :=
  { versions := { entries := [("v1", steadyCvSample)], maxSize := 10 },
    nextRefreshTime := 0,
    obj := { config := {}, secretId := "sid", err := none, errorCount := 0,
             refreshNeeded := false, nextRetryTime := 0,
             data := some sampleMeta } }

def staleCacheS : CacheState :=
  { lru := { entries := [("sid", staleItemS)], maxSize := 1024 }, config := {} }

def steadyCvSampleB : CacheVersionState :=
  { versionId := "v1",
    obj := { config := {}, secretId := "sid", err := none, errorCount := 0,
             refreshNeeded := false, nextRetryTime := 0,
             data := some sampleOutB } }

def staleItemB : SecretCacheItemState :=
  { versions := { entries := [("v1", steadyCvSampleB)], maxSize := 10 },
    nextRefreshTime := 0,
    obj := { config := {}, secretId := "sid", err := none, errorCount := 0,
             refreshNeeded := false, nextRetryTime := 0,
             data := some sampleMeta } }

def staleCacheB : CacheState :=
  { lru := { entries := [("sid", staleItemB)], maxSize := 1024 }, config := {} }

def nopriorItem : SecretCacheItemState := newSecretCacheItem {} "sid" 0

def nopriorCache : CacheState :=
  { lru := { entries := [("sid", nopriorItem)], maxSize := 1024 },
    config := {} }

/-- Invariant of a secret entry living in a negative-TTL cache: no metadata
was ever stored; the recorded error, if any, is the configuration error; and
an entry with no recorded error still has its refresh-needed flag set. -/
def NegItemOK (item : SecretCacheItemState) : Prop :=
  item.obj.data = none ∧
  item.obj.config.cacheItemTTL < 0 ∧
  (item.obj.err = none → item.obj.refreshNeeded = true) ∧
  (item.obj.err = none ∨ item.obj.err = some (.invalidConfig invalidTTLMsg))

/-- Invariant of a negative-TTL cache between facade calls. -/
def NegInv (c : CacheState) : Prop :=
  c.config.cacheItemTTL < 0 ∧ 1 ≤ c.lru.maxSize ∧
  ∀ p ∈ c.lru.entries, NegItemOK p.2

/-- Outcome summary of a facade read: the outer `Option` is `none` on a
would-be nil dereference; otherwise the inner value is the returned error, if
any. -/
def stringCallOutcome (x : Option (Except SMError String)) :
    Option (Option SMError) :=
  match x with
  | none => none
  | some (.error e) => some (some e)
  | some (.ok _) => some none

def binaryCallOutcome (x : Option (Except SMError (List Nat))) :
    Option (Option SMError) :=
  match x with
  | none => none
  | some (.error e) => some (some e)
  | some (.ok _) => some none

/-- Run a sequence of no-stage reads against one secret; each operation is a
time plus a flag selecting `GetSecretBinary` over `GetSecretString`. -/
def runMixedCalls (secretId : String) :
    CacheState → World → List (Int × Bool) →
      CacheState × World × List (Option (Option SMError))
  | c, w, [] => (c, w, [])
  | c, w, (t, useBin) :: ops =>
    let step :=
      if useBin then
        let rb := GetSecretBinary c w t secretId
        (binaryCallOutcome rb.1, rb.2.1, rb.2.2)
      else
        let rs := GetSecretString c w t secretId
        (stringCallOutcome rs.1, rs.2.1, rs.2.2)
    let rest := runMixedCalls secretId step.2.1 step.2.2 ops
    (rest.1, rest.2.1, step.1 :: rest.2.2)

/-- A concrete cache configured with TTL -1. -/
def negSampleCache : CacheState := newCache { cacheItemTTL := -1 }

/-- The scripted world used for the idempotent-caching claim: constant backing
responses (no network-observable change) and an arbitrary random source. -/
def constWorld (meta : DescribeSecretOutput) (out : GetSecretValueOutput)
    (rand : Nat → Nat) : World :=
  { backing :=
      { describe := fun _ _ => .ok meta
        getValue := fun _ _ _ => .ok out }
    rand := rand }

/-- A version entry in its steady post-success state. -/
def steadyCv (cfg : CacheConfig) (secretId vid : String)
    (out : GetSecretValueOutput) : CacheVersionState :=
  { versionId := vid,
    obj := { config := cfg, secretId := secretId, err := none, errorCount := 0,
             refreshNeeded := false, nextRetryTime := 0, data := some out } }

/-- A secret entry in its steady post-success state with one cached version
and next scheduled refresh time `T`. -/
def steadyItem (cfg : CacheConfig) (secretId vid : String)
    (meta : DescribeSecretOutput) (out : GetSecretValueOutput) (T : Int) :
    SecretCacheItemState :=
  { versions := LruCache.mk [(vid, steadyCv cfg secretId vid out)] 10,
    nextRefreshTime := T,
    obj := { config := cfg, secretId := secretId, err := none, errorCount := 0,
             refreshNeeded := false, nextRetryTime := 0, data := some meta } }

/-- The steady facade state after the first successful read: one secret entry
with scheduled refresh time `T`, in a container of capacity `M`. -/
def steadyCache (cfg : CacheConfig) (secretId vid : String)
    (meta : DescribeSecretOutput) (out : GetSecretValueOutput) (T M : Int) :
    CacheState where
  lru := LruCache.mk [(secretId, steadyItem cfg secretId vid meta out T)] M
  config := cfg

/-- The world after the first cold read: one describe call, one get-value
call, one random draw. -/
def afterFirstWorld (meta : DescribeSecretOutput) (out : GetSecretValueOutput)
    (rand : Nat → Nat) : World :=
  { constWorld meta out rand with
    describeCalls := 1, getValueCalls := 1, randCalls := 1 }

/-- Iterated `GetSecretString` calls on one secret at the given times. -/
def runGetSecretString (secretId : String) :
    CacheState → World → List Int →
      CacheState × World × List (Option (Except SMError String))
  | c, w, [] => (c, w, [])
  | c, w, t :: ts =>
    let r := GetSecretString c w t secretId
    let rest := runGetSecretString secretId r.2.1 r.2.2 ts
    (rest.1, rest.2.1, r.1 :: rest.2.2)

/-- An operation on an eviction container. -/
inductive LruOp (α : Type) where
  | get : String → LruOp α
  | put : String → α → LruOp α

/-- One source operation. -/
def lruExecOp {α : Type} (l : LruCache α) : LruOp α → LruCache α
  | .get k => (lruGet l k).2
  | .put k v => (lruPutIfAbsent l k v).2

/-- A sequence of source operations. -/
def lruExec {α : Type} : LruCache α → List (LruOp α) → LruCache α
  | l, [] => l
  | l, op :: ops => lruExec (lruExecOp l op) ops

/-- A record of one eviction: the evicted entry, the entries present at that
moment (the just-inserted entry included), and the ghost last-access table at
that moment. -/
structure EvictRecord (α : Type) where
  evicted : String × α
  present : List (String × α)
  acc : List (String × Nat)
deriving DecidableEq

/-- Trace state: the container, the ghost last-access table (most recent
binding first), the step counter, and the eviction log. -/
structure LruTrace (α : Type) where
  cache : LruCache α
  acc : List (String × Nat)
  step : Nat
  evLog : List (EvictRecord α)

/-- One traced operation: mirrors `lruGet` / `lruPutIfAbsent`, stamping the
access table on a get hit and on an insertion, and logging any eviction. -/
def lruTraceStep {α : Type} (st : LruTrace α) : LruOp α → LruTrace α
  | .get k =>
    match lruLookup st.cache.entries k with
    | none => { st with step := st.step + 1 }
    | some v =>
      { st with
        cache := { st.cache with
          entries := (k, v) :: lruRemove st.cache.entries k },
        acc := (k, st.step) :: st.acc,
        step := st.step + 1 }
  | .put k v =>
    match lruLookup st.cache.entries k with
    | some _ => { st with step := st.step + 1 }
    | none =>
      if (((k, v) :: st.cache.entries).length : Int) > st.cache.maxSize then
        { cache := { st.cache with
            entries := ((k, v) :: st.cache.entries).dropLast },
          acc := (k, st.step) :: st.acc,
          step := st.step + 1,
          evLog := EvictRecord.mk
            (((k, v) :: st.cache.entries).getLast (List.cons_ne_nil _ _))
            ((k, v) :: st.cache.entries)
            ((k, st.step) :: st.acc) :: st.evLog }
      else
        { st with
          cache := { st.cache with entries := (k, v) :: st.cache.entries },
          acc := (k, st.step) :: st.acc,
          step := st.step + 1 }

/-- Traced execution of a sequence of operations. -/
def lruTraceRun {α : Type} : LruTrace α → List (LruOp α) → LruTrace α
  | st, [] => st
  | st, op :: ops => lruTraceRun (lruTraceStep st op) ops

/-- The initial trace state over an empty container of the given capacity. -/
def initTrace (α : Type) (cap : Int) : LruTrace α :=
  { cache := newLRUCache α cap, acc := [], step := 0, evLog := [] }

/-- The recency relation induced by an access table: `a` was accessed more
recently than `b`. -/
def RAcc {α : Type} (A : List (String × Nat)) (a b : String × α) : Prop :=
  ∀ ta tb, lruLookup A a.1 = some ta → lruLookup A b.1 = some tb → tb < ta

/-- Correctness of one logged eviction: the evicted entry was present, every
present entry has a recorded access time, and every other present entry was
accessed strictly more recently than the evicted one. -/
def EvictOK {α : Type} (r : EvictRecord α) : Prop :=
  r.evicted ∈ r.present ∧
  (∀ p ∈ r.present, ∃ t, lruLookup r.acc p.1 = some t) ∧
  (∀ p ∈ r.present, p.1 ≠ r.evicted.1 → ∀ tp te,
    lruLookup r.acc p.1 = some tp →
    lruLookup r.acc r.evicted.1 = some te → te < tp)

/-- The trace invariant: every stored entry has an access time below the step
counter, keys are distinct, the entry list is ordered by strictly decreasing
access time, and every logged eviction is correct. -/
def TraceOK {α : Type} (st : LruTrace α) : Prop :=
  (∀ p ∈ st.cache.entries, ∃ t, lruLookup st.acc p.1 = some t ∧ t < st.step) ∧
  (st.cache.entries.map Prod.fst).Nodup ∧
  st.cache.entries.Pairwise (RAcc st.acc) ∧
  ∀ r ∈ st.evLog, EvictOK r

/-- The operation sequence of the C2 witness: fill a capacity-2 container,
touch "a", then insert "c" — which must evict "b". -/
def witnessOps : List (LruOp Nat) :=
  [.put "a" 1, .put "b" 2, .get "a", .put "c" 3]

/-! ## Basic container lemmas -/

theorem lruLookup_eq_none_iff {α : Type} {l : List (String × α)} {k : String} :
    lruLookup l k = none ↔ ∀ p ∈ l, p.1 ≠ k := by
  induction l with
  | nil => simp [lruLookup]
  | cons e rest ih =>
    by_cases h : e.1 = k <;> simp [lruLookup, h, ih]

theorem lruRemove_sublist {α : Type} (l : List (String × α)) (k : String) :
    (lruRemove l k).Sublist l := by
  induction l with
  | nil => simp [lruRemove]
  | cons e rest ih =>
    by_cases h : e.1 = k
    · simp only [lruRemove, h, if_true]
      exact List.sublist_cons_self e rest
    · simpa [lruRemove, h] using ih.cons₂ e

theorem lruRemove_length {α : Type} {l : List (String × α)} {k : String}
    {v : α} (hl : lruLookup l k = some v) :
    (lruRemove l k).length + 1 = l.length := by
  induction l with
  | nil => simp [lruLookup] at hl
  | cons e rest ih =>
    by_cases h : e.1 = k
    · simp [lruRemove, h]
    · simp only [lruLookup, h, if_false] at hl
      simp [lruRemove, h, ih hl]

theorem mem_lruRemove_ne {α : Type} {l : List (String × α)} {k : String}
    {p : String × α} (hnd : (l.map Prod.fst).Nodup)
    (hmem : p ∈ lruRemove l k) : p ∈ l ∧ (lruLookup l k ≠ none → p.1 ≠ k) := by
  induction l with
  | nil => simp [lruRemove] at hmem
  | cons e rest ih =>
    simp only [List.map_cons, List.nodup_cons] at hnd
    by_cases h : e.1 = k
    · simp only [lruRemove, h, if_true] at hmem
      refine ⟨List.mem_cons_of_mem e hmem, fun _ hk => hnd.1 ?_⟩
      have hp : p.1 ∈ rest.map Prod.fst := List.mem_map_of_mem Prod.fst hmem
      rwa [hk, ← h] at hp
    · simp only [lruRemove, h, if_false, List.mem_cons] at hmem
      rcases hmem with hmem | hmem
      · exact ⟨by simp [hmem], fun _ => hmem ▸ h⟩
      · rcases ih hnd.2 hmem with ⟨h1, h2⟩
        refine ⟨List.mem_cons_of_mem e h1, fun hne => ?_⟩
        simp only [lruLookup, h, if_false] at hne
        exact h2 hne

/-! ## Claim C5 -/

/-- C5: `putIfAbsent` on a key already present returns `false` and leaves the
container fully unchanged — stored value, entry set and recency order — so the
first writer wins. -/
theorem claim_putIfAbsent_existing_noop {α : Type} (l : LruCache α)
    (k : String) (v vNew : α) (h : lruLookup l.entries k = some v) :
    lruPutIfAbsent l k vNew = (false, l) ∧
    lruLookup (lruPutIfAbsent l k vNew).2.entries k = some v := by
  refine ⟨?_, ?_⟩ <;> simp [lruPutIfAbsent, h]

/-- Witness for C5 at a concrete container. -/
theorem claim_putIfAbsent_existing_noop_witness :
    lruPutIfAbsent (LruCache.mk [("a", 1), ("b", 2)] 5) "a" (9 : Nat) =
      (false, LruCache.mk [("a", 1), ("b", 2)] 5) ∧
    lruLookup (lruPutIfAbsent (LruCache.mk [("a", 1), ("b", 2)] 5) "a"
      (9 : Nat)).2.entries "a" = some 1 :=
  claim_putIfAbsent_existing_noop (LruCache.mk [("a", 1), ("b", 2)] 5)
    "a" 1 9 (by decide)

/-! ## Claim C7 -/

/-- C7: `isRefreshNeeded` returns true exactly when the refresh-needed flag is
set, or an error is recorded and the retry time is unset (0) or has passed;
in particular it is false when the flag is clear and no error is recorded. -/
theorem claim_isRefreshNeeded_characterization {δ : Type} (o : CacheObj δ)
    (now : Int) :
    cacheObjIsRefreshNeeded o now =
      (o.refreshNeeded ||
        (o.err.isSome &&
          (decide (o.nextRetryTime = 0) || decide (o.nextRetryTime ≤ now)))) ∧
    (o.refreshNeeded = false → o.err = none →
      cacheObjIsRefreshNeeded o now = false) := by
  constructor
  · cases hf : o.refreshNeeded <;> cases he : o.err <;>
      by_cases h0 : o.nextRetryTime = 0 <;>
      simp [cacheObjIsRefreshNeeded, hf, he, h0]
  · intro hf he
    simp [cacheObjIsRefreshNeeded, hf, he]

/-- Witness for C7 at a concrete refresh state. -/
theorem claim_isRefreshNeeded_characterization_witness :
    (cacheObjIsRefreshNeeded
        (CacheObj.mk (δ := Nat) {} "sid" none 0 false 7 none) 5 =
      (false ||
        ((none : Option SMError).isSome &&
          (decide ((7 : Int) = 0) || decide ((7 : Int) ≤ 5))))) ∧
    cacheObjIsRefreshNeeded
        (CacheObj.mk (δ := Nat) {} "sid" none 0 false 7 none) 5 = false :=
  ⟨(claim_isRefreshNeeded_characterization
      (CacheObj.mk (δ := Nat) {} "sid" none 0 false 7 none) 5).1,
   (claim_isRefreshNeeded_characterization
      (CacheObj.mk (δ := Nat) {} "sid" none 0 false 7 none) 5).2 rfl rfl⟩

/-! ## Claim C8 -/

/-- C8 counterexample: with effective TTL 3, the value 2 lies in the half-open
range `[3/2, 3)` yet no value of the random source produces delay 2 (the delay
is always 1), so the delay is not uniformly distributed over `[ttl/2, ttl)`. -/
theorem claim_jitter_uniformity_counterexample :
    (3 : Int) / 2 ≤ 2 ∧ (2 : Int) < 3 ∧ ¬ ∃ r : Nat, jitteredTTL 3 r = 2 := by
  refine ⟨by norm_num, by norm_num, ?_⟩
  rintro ⟨r, hr⟩
  norm_num [jitteredTTL, int63n] at hr

/-- C8 (amended): for effective TTL `maxTTL ≥ 2` the jittered delay equals
`(r % (maxTTL/2)) + maxTTL/2`, hence always lies in `[maxTTL/2, maxTTL)`, and
it is uniformly distributed over `[maxTTL/2, 2*(maxTTL/2))` — the upper half
of the range; for odd TTL the top value `maxTTL - 1` is never drawn.  For
`0 ≤ maxTTL < 2` the delay equals `maxTTL` itself. -/
theorem claim_jitter_amended (maxTTL d : Int) (r : Nat) :
    (2 ≤ maxTTL →
      jitteredTTL maxTTL r = ((r % (maxTTL / 2).toNat : Nat) : Int) + maxTTL / 2 ∧
      maxTTL / 2 ≤ jitteredTTL maxTTL r ∧
      jitteredTTL maxTTL r < 2 * (maxTTL / 2) ∧
      jitteredTTL maxTTL r < maxTTL) ∧
    (2 ≤ maxTTL → maxTTL / 2 ≤ d → d < 2 * (maxTTL / 2) →
      ∃ s : Nat, s < (maxTTL / 2).toNat ∧ jitteredTTL maxTTL s = d) ∧
    (0 ≤ maxTTL → maxTTL < 2 → jitteredTTL maxTTL r = maxTTL) := by
  refine ⟨?_, ?_, ?_⟩
  · intro h2
    have hnot : ¬ maxTTL < 2 := by omega
    have hn : (1 : Int) ≤ maxTTL / 2 := by omega
    have hnNat : 0 < (maxTTL / 2).toNat := by omega
    have hmod : r % (maxTTL / 2).toNat < (maxTTL / 2).toNat := Nat.mod_lt r hnNat
    have hcast : ((r % (maxTTL / 2).toNat : Nat) : Int) < maxTTL / 2 := by omega
    refine ⟨by simp [jitteredTTL, int63n, hnot], ?_, ?_, ?_⟩ <;>
      simp only [jitteredTTL, int63n, hnot, if_false] <;> omega
  · intro h2 hd1 hd2
    have hn : (1 : Int) ≤ maxTTL / 2 := by omega
    refine ⟨(d - maxTTL / 2).toNat, by omega, ?_⟩
    have hnot : ¬ maxTTL < 2 := by omega
    have hlt : (d - maxTTL / 2).toNat < (maxTTL / 2).toNat := by omega
    simp only [jitteredTTL, int63n, hnot, if_false]
    rw [Nat.mod_eq_of_lt hlt]
    omega
  · intro h0 h2
    simp [jitteredTTL, h2]

/-- Witness for C8 (amended) at TTL 4, target delay 3, raw random value 5. -/
theorem claim_jitter_amended_witness :
    (jitteredTTL 4 5 = ((5 % ((4 : Int) / 2).toNat : Nat) : Int) + (4 : Int) / 2 ∧
      (4 : Int) / 2 ≤ jitteredTTL 4 5 ∧
      jitteredTTL 4 5 < 2 * ((4 : Int) / 2) ∧
      jitteredTTL 4 5 < 4) ∧
    (∃ s : Nat, s < ((4 : Int) / 2).toNat ∧ jitteredTTL 4 s = 3) ∧
    jitteredTTL 1 5 = 1 :=
  ⟨(claim_jitter_amended 4 3 5).1 (by norm_num),
   (claim_jitter_amended 4 3 5).2.1 (by norm_num) (by norm_num) (by norm_num),
   (claim_jitter_amended 1 3 5).2.2 (by norm_num) (by norm_num)⟩

/-! ## Claim C9 -/

theorem lruLookup_putIfAbsent_self {α : Type} (l : LruCache α) (k : String)
    (v : α) (hmax : 1 ≤ l.maxSize) (hmiss : lruLookup l.entries k = none) :
    lruLookup (lruPutIfAbsent l k v).2.entries k = some v := by
  simp only [lruPutIfAbsent, hmiss]
  split
  · rename_i hlen
    cases hE : l.entries with
    | nil =>
      rw [hE] at hlen
      simp only [List.length_cons, List.length_nil] at hlen
      omega
    | cons e rest =>
      simp [List.dropLast_cons₂, lruLookup]
  · simp [lruLookup]

/-- The first component of `lruGet` is exactly the key lookup. -/
theorem lruGet_fst {α : Type} (l : LruCache α) (k : String) :
    (lruGet l k).1 = lruLookup l.entries k := by
  unfold lruGet
  cases lruLookup l.entries k <;> rfl

/-- C9: for capacity at least 1, an insertion that returns true is immediately
retrievable — the just-inserted entry is never the one evicted — so the
facade's miss path (construct, `putIfAbsent`, re-`get`) always obtains a
non-nil canonical secret entry; for capacity 0 it does not (the re-`get`
misses and the facade would dereference nil). -/
theorem claim_insert_then_get_safe :
    (∀ (α : Type) (l : LruCache α) (k : String) (v : α),
      1 ≤ l.maxSize → (lruPutIfAbsent l k v).1 = true →
      (lruGet (lruPutIfAbsent l k v).2 k).1 = some v) ∧
    (∀ (c : CacheState) (secretId : String) (now : Int),
      1 ≤ c.lru.maxSize → (getCachedSecret c secretId now).1.isSome = true) ∧
    (getCachedSecret
        { lru := newLRUCache SecretCacheItemState 0, config := {} }
        "k" 0).1 = none := by
  refine ⟨?_, ?_, ?_⟩
  · intro α l k v hmax htrue
    cases hm : lruLookup l.entries k with
    | some v0 => simp [lruPutIfAbsent, hm] at htrue
    | none => rw [lruGet_fst]; exact lruLookup_putIfAbsent_self l k v hmax hm
  · intro c secretId now hmax
    cases hm : lruLookup c.lru.entries secretId with
    | some item => simp [getCachedSecret, lruGet, hm]
    | none =>
      have h2 : lruGet c.lru secretId = (none, c.lru) := by
        unfold lruGet; rw [hm]
      have h3 := lruLookup_putIfAbsent_self c.lru secretId
        (newSecretCacheItem c.config secretId now) hmax hm
      simp only [getCachedSecret, h2]
      rw [lruGet_fst, h3]
      rfl
  · rfl

/-- Witness for C9 at concrete containers. -/
theorem claim_insert_then_get_safe_witness :
    (lruGet (lruPutIfAbsent (LruCache.mk ([] : List (String × Nat)) 1)
        "a" 7).2 "a").1 = some 7 ∧
    (getCachedSecret
        { lru := newLRUCache SecretCacheItemState 1, config := {} }
        "s" 0).1.isSome = true :=
  ⟨claim_insert_then_get_safe.1 Nat (LruCache.mk [] 1) "a" 7 (by norm_num) rfl,
   claim_insert_then_get_safe.2.1
     { lru := newLRUCache SecretCacheItemState 1, config := {} } "s" 0
     (by norm_num [newLRUCache])⟩

/-! ## Shared refresh-state helpers and sample fixtures -/

theorem cacheObjIsRefreshNeeded_clear {δ : Type} {o : CacheObj δ} (now : Int)
    (hf : o.refreshNeeded = false) (he : o.err = none) :
    cacheObjIsRefreshNeeded o now = false := by
  simp [cacheObjIsRefreshNeeded, hf, he]

theorem versionGetSecretValue_steady (cv : CacheVersionState) (w : World)
    (now : Int) (hf : cv.obj.refreshNeeded = false) (he : cv.obj.err = none) :
    versionGetSecretValue cv w now = ((cv.obj.data, none), cv, w) := by
  have h1 : versionRefresh cv w now = (cv, w) := by
    unfold versionRefresh
    rw [if_pos]
    simp [versionIsRefreshNeeded, cacheObjIsRefreshNeeded_clear now hf he]
  unfold versionGetSecretValue
  rw [h1]
  simp [he]

/-! ## Claim C10 -/

/-- C10: a successful version refresh stores the payload and clears both the
refresh-needed flag and the error state; from that state `getSecretValue`
returns the stored payload with no error and without issuing any backing
`GetSecretValue` call (the world, including its call counters, is unchanged),
for every later time and every number of subsequent calls — version-level
payloads have no TTL. -/
theorem claim_version_payload_never_refetched :
    (∀ (cv : CacheVersionState) (w : World) (now : Int)
        (out : GetSecretValueOutput),
      versionIsRefreshNeeded cv now = true →
      w.backing.getValue w.getValueCalls cv.obj.secretId cv.versionId =
        .ok out →
      versionRefresh cv w now =
        ({ cv with obj := { cv.obj with
            refreshNeeded := false,
            data := some out, err := none, errorCount := 0 } },
         { w with getValueCalls := w.getValueCalls + 1 })) ∧
    (∀ (cv : CacheVersionState) (w : World) (ts : List Int),
      cv.obj.refreshNeeded = false → cv.obj.err = none →
      runVersionGetSecretValue cv w ts = (cv, w)) ∧
    (∀ (cv : CacheVersionState) (w : World) (now : Int),
      cv.obj.refreshNeeded = false → cv.obj.err = none →
      versionGetSecretValue cv w now = ((cv.obj.data, none), cv, w)) := by
  refine ⟨?_, ?_, ?_⟩
  · intro cv w now out hneed hok
    obtain ⟨vid, obj⟩ := cv
    obtain ⟨cfg, sid, err2, ec, rn, nrt, dat⟩ := obj
    unfold versionRefresh
    rw [if_neg (by simp [hneed])]
    simp only [versionExecuteRefresh, callGetSecretValue]
    dsimp only at hok ⊢
    rw [hok]
  · intro cv w ts hf he
    induction ts with
    | nil => rfl
    | cons t ts ih =>
      unfold runVersionGetSecretValue
      rw [versionGetSecretValue_steady cv w t hf he]
      exact ih
  · intro cv w now hf he
    exact versionGetSecretValue_steady cv w now hf he

/-- Witness for C10 at a concrete version entry and world. -/
theorem claim_version_payload_never_refetched_witness :
    versionRefresh (newCacheVersion {} "sid" "v1") sampleWorld 0 =
      ({ newCacheVersion {} "sid" "v1" with
          obj := { (newCacheVersion {} "sid" "v1").obj with
            refreshNeeded := false, data := some sampleOutS, err := none,
            errorCount := 0 } },
       { sampleWorld with getValueCalls := 1 }) ∧
    runVersionGetSecretValue steadyCvSample sampleWorld [1, 2, 3] =
      (steadyCvSample, sampleWorld) ∧
    versionGetSecretValue steadyCvSample sampleWorld 9 =
      ((some sampleOutS, none), steadyCvSample, sampleWorld) :=
  ⟨claim_version_payload_never_refetched.1
      (newCacheVersion {} "sid" "v1") sampleWorld 0 sampleOutS rfl rfl,
   claim_version_payload_never_refetched.2.1
      steadyCvSample sampleWorld [1, 2, 3] rfl rfl,
   claim_version_payload_never_refetched.2.2
      steadyCvSample sampleWorld 9 rfl rfl⟩

/-! ## Claim C4 -/

/-- C4 counterexample: on a cache configured with versionStage "CUSTOM" whose
secret's only version carries exactly that stage, the no-stage read
`GetSecretString` does not resolve via the configured stage — it fails with a
version-not-found error for the fixed literal "AWSCURRENT", while the same
read through the configured stage succeeds. -/
theorem claim_default_stage_counterexample :
    (GetSecretString customStageCache customWorld 0 "id").1 =
      some (.error (.versionNotFound
        "could not find secret version for versionStage AWSCURRENT")) ∧
    (GetSecretStringWithStage customStageCache customWorld 0 "id" "CUSTOM").1 =
      some (.ok "s3cret") := by
  constructor <;> rfl

/-- C4 (amended): the no-stage reads `GetSecretString` / `GetSecretBinary`
always delegate with the fixed literal default stage "AWSCURRENT", regardless
of the configured versionStage; the configured versionStage is consulted only
when a WithStage variant is called with an empty stage string, and the fixed
default is used only when the configured stage is also empty. -/
theorem claim_default_stage_amended :
    (∀ (c : CacheState) (w : World) (now : Int) (secretId : String),
      GetSecretString c w now secretId =
        GetSecretStringWithStage c w now secretId DefaultVersionStage) ∧
    (∀ (c : CacheState) (w : World) (now : Int) (secretId : String),
      GetSecretBinary c w now secretId =
        GetSecretBinaryWithStage c w now secretId DefaultVersionStage) ∧
    (∀ configStage : String, configStage ≠ "" →
      resolveVersionStage "" configStage = configStage) ∧
    resolveVersionStage "" "" = DefaultVersionStage ∧
    (∀ requested configStage : String, requested ≠ "" →
      resolveVersionStage requested configStage = requested) := by
  refine ⟨fun _ _ _ _ => rfl, fun _ _ _ _ => rfl, ?_, by rfl, ?_⟩
  · intro configStage h
    simp [resolveVersionStage, h]
  · intro requested configStage h
    simp [resolveVersionStage, h]

/-- Witness for C4 (amended) at concrete stages and a concrete cache. -/
theorem claim_default_stage_amended_witness :
    GetSecretString customStageCache customWorld 0 "id" =
      GetSecretStringWithStage customStageCache customWorld 0 "id"
        DefaultVersionStage ∧
    resolveVersionStage "" "CUSTOM" = "CUSTOM" ∧
    resolveVersionStage "AWSPREVIOUS" "CUSTOM" = "AWSPREVIOUS" :=
  ⟨claim_default_stage_amended.1 customStageCache customWorld 0 "id",
   claim_default_stage_amended.2.2.1 "CUSTOM" (by decide),
   claim_default_stage_amended.2.2.2.2 "AWSPREVIOUS" "CUSTOM" (by decide)⟩

/-! ## Claim C1: helper lemmas -/

theorem getCachedSecret_hit (c : CacheState) (secretId : String) (now : Int)
    (item : SecretCacheItemState)
    (h : lruLookup c.lru.entries secretId = some item) :
    getCachedSecret c secretId now =
      (some item, { c with lru := { c.lru with
        entries := (secretId, item) :: lruRemove c.lru.entries secretId } }) := by
  unfold getCachedSecret lruGet
  rw [h]

/-- A failing secret-entry refresh (the backing `DescribeSecret` call errors,
or a negative TTL is detected) records some error on the entry and leaves its
metadata, version container, configuration and secret id unchanged. -/
theorem itemRefresh_fail (ci : SecretCacheItemState) (w : World) (now : Int)
    (e : SMError)
    (hneed : itemIsRefreshNeeded ci now = true)
    (hdesc : w.backing.describe w.describeCalls ci.obj.secretId = .error e) :
    ∃ (e2 : SMError) (ci2 : SecretCacheItemState) (w2 : World),
      itemRefresh ci w now = (ci2, w2) ∧
      ci2.obj.data = ci.obj.data ∧
      ci2.versions = ci.versions ∧
      ci2.obj.config = ci.obj.config ∧
      ci2.obj.secretId = ci.obj.secretId ∧
      ci2.obj.err = some e2 ∧
      w2.backing = w.backing := by
  obtain ⟨vers, nrt0, obj⟩ := ci
  obtain ⟨cfg, sid, err0, ec0, rn0, nrt1, dat0⟩ := obj
  dsimp only at hdesc hneed ⊢
  unfold itemRefresh
  rw [if_neg (by simp [hneed])]
  unfold itemExecuteRefresh callDescribeSecret
  dsimp only
  rw [hdesc]
  by_cases h0 : effectiveTTL cfg < 0
  · rw [if_pos h0]
    exact ⟨_, _, _, rfl, rfl, rfl, rfl, rfl, rfl, rfl⟩
  · rw [if_neg h0]
    by_cases h2 : effectiveTTL cfg < 2
    · rw [if_pos h2]
      exact ⟨_, _, _, rfl, rfl, rfl, rfl, rfl, rfl, rfl⟩
    · rw [if_neg h2]
      exact ⟨_, _, _, rfl, rfl, rfl, rfl, rfl, rfl, rfl⟩

theorem itemGetVersion_hit (ci : SecretCacheItemState) (stage vid : String)
    (cv : CacheVersionState)
    (hvid : getVersionIdOf ci.obj.data stage = some vid)
    (hcv : lruLookup ci.versions.entries vid = some cv) :
    itemGetVersion ci stage =
      ((true, some cv),
       { ci with versions := { ci.versions with
           entries := (vid, cv) :: lruRemove ci.versions.entries vid } }) := by
  unfold itemGetVersion lruGet
  rw [hvid]
  dsimp only
  rw [hcv]

theorem itemGetVersion_nodata (ci : SecretCacheItemState) (stage : String)
    (h : ci.obj.data = none) :
    itemGetVersion ci stage = ((false, none), ci) := by
  unfold itemGetVersion
  rw [h]
  rfl

/-- `secretCacheItem.getSecretValue` when the refresh attempt fails but stale
metadata and a cached version payload exist: the stale payload is returned
with no error. -/
theorem itemGetSecretValue_stale (item : SecretCacheItemState) (w : World)
    (now : Int) (stage vid : String) (meta : DescribeSecretOutput)
    (cv : CacheVersionState) (e : SMError)
    (hdata : item.obj.data = some meta)
    (hneed : itemIsRefreshNeeded item now = true)
    (hdesc : w.backing.describe w.describeCalls item.obj.secretId = .error e)
    (hvid : getVersionIdOf (some meta)
      (resolveVersionStage stage item.obj.config.versionStage) = some vid)
    (hcv : lruLookup item.versions.entries vid = some cv)
    (hf : cv.obj.refreshNeeded = false) (he : cv.obj.err = none) :
    ∃ (item2 : SecretCacheItemState) (w2 : World),
      itemGetSecretValue item w now stage =
        (some (cv.obj.data, none), item2, w2) := by
  obtain ⟨e2, ci2, w2, heq, hd2, hv2, hc2, hs2, he2, hb2⟩ :=
    itemRefresh_fail item w now e hneed hdesc
  unfold itemGetSecretValue
  rw [heq]
  dsimp only
  rw [itemGetVersion_hit ci2 _ vid cv (by rw [hd2, hdata]; exact hvid)
    (by rw [hv2]; exact hcv)]
  dsimp only
  rw [versionGetSecretValue_steady cv w2 now hf he]
  exact ⟨_, _, rfl⟩

/-- `secretCacheItem.getSecretValue` when the refresh attempt fails and no
metadata was ever stored: the recorded error is surfaced. -/
theorem itemGetSecretValue_noprior (item : SecretCacheItemState) (w : World)
    (now : Int) (stage : String) (e : SMError)
    (hdata : item.obj.data = none)
    (hneed : itemIsRefreshNeeded item now = true)
    (hdesc : w.backing.describe w.describeCalls item.obj.secretId = .error e) :
    ∃ (e2 : SMError) (item2 : SecretCacheItemState) (w2 : World),
      itemGetSecretValue item w now stage =
        (some (none, some e2), item2, w2) := by
  obtain ⟨e2, ci2, w2, heq, hd2, hv2, hc2, hs2, he2, hb2⟩ :=
    itemRefresh_fail item w now e hneed hdesc
  unfold itemGetSecretValue
  rw [heq]
  dsimp only
  rw [itemGetVersion_nodata ci2 _ (by rw [hd2, hdata])]
  dsimp only
  rw [he2]
  exact ⟨e2, _, _, rfl⟩

/-! ## Claim C1 -/

/-- C1: when a secret entry holds previously fetched metadata, a cached
version payload exists for the resolved stage, and the current refresh attempt
fails (the backing `DescribeSecret` call errors while a refresh is due), the
string and binary reads return the previously cached stale value instead of
surfacing the recorded error; when no metadata was ever stored successfully,
the recorded error is surfaced to the caller. -/
theorem claim_stale_on_error :
    (∀ (c : CacheState) (w : World) (now : Int) (secretId stage : String)
        (item : SecretCacheItemState) (meta : DescribeSecretOutput)
        (vid : String) (cv : CacheVersionState) (out : GetSecretValueOutput)
        (s : String) (e : SMError),
      lruLookup c.lru.entries secretId = some item →
      item.obj.data = some meta →
      itemIsRefreshNeeded item now = true →
      w.backing.describe w.describeCalls item.obj.secretId = .error e →
      getVersionIdOf (some meta)
        (resolveVersionStage stage item.obj.config.versionStage) = some vid →
      lruLookup item.versions.entries vid = some cv →
      cv.obj.refreshNeeded = false → cv.obj.err = none →
      cv.obj.data = some out → out.secretString = some s →
      (GetSecretStringWithStage c w now secretId stage).1 = some (.ok s)) ∧
    (∀ (c : CacheState) (w : World) (now : Int) (secretId stage : String)
        (item : SecretCacheItemState) (meta : DescribeSecretOutput)
        (vid : String) (cv : CacheVersionState) (out : GetSecretValueOutput)
        (b : List Nat) (e : SMError),
      lruLookup c.lru.entries secretId = some item →
      item.obj.data = some meta →
      itemIsRefreshNeeded item now = true →
      w.backing.describe w.describeCalls item.obj.secretId = .error e →
      getVersionIdOf (some meta)
        (resolveVersionStage stage item.obj.config.versionStage) = some vid →
      lruLookup item.versions.entries vid = some cv →
      cv.obj.refreshNeeded = false → cv.obj.err = none →
      cv.obj.data = some out → out.secretBinary = some b →
      (GetSecretBinaryWithStage c w now secretId stage).1 = some (.ok b)) ∧
    (∀ (c : CacheState) (w : World) (now : Int) (secretId stage : String)
        (item : SecretCacheItemState) (e : SMError),
      lruLookup c.lru.entries secretId = some item →
      item.obj.data = none →
      itemIsRefreshNeeded item now = true →
      w.backing.describe w.describeCalls item.obj.secretId = .error e →
      ∃ e2 : SMError,
        (GetSecretStringWithStage c w now secretId stage).1 =
          some (.error e2)) := by
  refine ⟨?_, ?_, ?_⟩
  · intro c w now secretId stage item meta vid cv out s e
    intro hit hdata hneed hdesc hvid hcv hf he hout hs
    obtain ⟨item2, w2, heq⟩ :=
      itemGetSecretValue_stale item w now stage vid meta cv e
        hdata hneed hdesc hvid hcv hf he
    unfold GetSecretStringWithStage
    rw [getCachedSecret_hit c secretId now item hit]
    dsimp only
    rw [heq]
    dsimp only
    rw [hout]
    dsimp only
    rw [hs]
  · intro c w now secretId stage item meta vid cv out b e
    intro hit hdata hneed hdesc hvid hcv hf he hout hb
    obtain ⟨item2, w2, heq⟩ :=
      itemGetSecretValue_stale item w now stage vid meta cv e
        hdata hneed hdesc hvid hcv hf he
    unfold GetSecretBinaryWithStage
    rw [getCachedSecret_hit c secretId now item hit]
    dsimp only
    rw [heq]
    dsimp only
    rw [hout]
    dsimp only
    rw [hb]
  · intro c w now secretId stage item e hit hdata hneed hdesc
    obtain ⟨e2, item2, w2, heq⟩ :=
      itemGetSecretValue_noprior item w now stage e hdata hneed hdesc
    refine ⟨e2, ?_⟩
    unfold GetSecretStringWithStage
    rw [getCachedSecret_hit c secretId now item hit]
    dsimp only
    rw [heq]

/-! ## Claim C1: witness fixtures -/

/-- Witness for C1: stale string and binary payloads are served while the
backing service fails, and the error is surfaced when nothing was ever
fetched. -/
theorem claim_stale_on_error_witness :
    (GetSecretStringWithStage staleCacheS failWorld 0 "sid" "AWSCURRENT").1 =
      some (.ok "s3cret") ∧
    (GetSecretBinaryWithStage staleCacheB failWorld 0 "sid" "AWSCURRENT").1 =
      some (.ok [1, 0, 1]) ∧
    ∃ e2 : SMError,
      (GetSecretStringWithStage nopriorCache failWorld 0 "sid"
        "AWSCURRENT").1 = some (.error e2) :=
  ⟨claim_stale_on_error.1 staleCacheS failWorld 0 "sid" "AWSCURRENT"
      staleItemS sampleMeta "v1" steadyCvSample sampleOutS "s3cret"
      (.backing 7) rfl rfl rfl rfl rfl rfl rfl rfl rfl rfl,
   claim_stale_on_error.2.1 staleCacheB failWorld 0 "sid" "AWSCURRENT"
      staleItemB sampleMeta "v1" steadyCvSampleB sampleOutB [1, 0, 1]
      (.backing 7) rfl rfl rfl rfl rfl rfl rfl rfl rfl rfl,
   claim_stale_on_error.2.2 nopriorCache failWorld 0 "sid" "AWSCURRENT"
      nopriorItem (.backing 7) (by rfl) (by rfl) (by rfl) (by rfl)⟩

/-! ## Claim C6: membership lemmas and the negative-TTL invariant -/

theorem lruLookup_mem {α : Type} {l : List (String × α)} {k : String} {v : α}
    (h : lruLookup l k = some v) : (k, v) ∈ l := by
  induction l with
  | nil => simp [lruLookup] at h
  | cons e rest ih =>
    by_cases hk : e.1 = k
    · simp only [lruLookup, hk, if_true, Option.some.injEq] at h
      subst h
      rw [← hk]
      simp
    · simp only [lruLookup, hk, if_false] at h
      exact List.mem_cons_of_mem e (ih h)

theorem mem_lruGet_snd {α : Type} {l : LruCache α} {k : String}
    {p : String × α} (hmem : p ∈ (lruGet l k).2.entries) : p ∈ l.entries := by
  unfold lruGet at hmem
  cases hv : lruLookup l.entries k with
  | none => rw [hv] at hmem; exact hmem
  | some v =>
    rw [hv] at hmem
    simp only [List.mem_cons] at hmem
    rcases hmem with h | h
    · exact h ▸ lruLookup_mem hv
    · exact (lruRemove_sublist l.entries k).mem h

theorem mem_lruPutIfAbsent {α : Type} {l : LruCache α} {k : String} {v : α}
    {p : String × α} (hmem : p ∈ (lruPutIfAbsent l k v).2.entries) :
    p = (k, v) ∨ p ∈ l.entries := by
  unfold lruPutIfAbsent at hmem
  cases hv : lruLookup l.entries k with
  | some v0 => rw [hv] at hmem; exact Or.inr hmem
  | none =>
    rw [hv] at hmem
    dsimp only at hmem
    split at hmem
    · have := List.dropLast_sublist ((k, v) :: l.entries)
      have h2 := this.mem hmem
      simpa using h2
    · simpa using hmem

theorem mem_lruSetData {α : Type} {l : LruCache α} {k : String} {v : α}
    {p : String × α} (hmem : p ∈ (lruSetData l k v).entries) :
    p.2 = v ∨ p ∈ l.entries := by
  unfold lruSetData at hmem
  simp only [List.mem_map] at hmem
  obtain ⟨q, hq, heq⟩ := hmem
  by_cases hk : q.1 = k
  · rw [if_pos hk] at heq
    exact Or.inl (by rw [← heq])
  · rw [if_neg hk] at heq
    exact Or.inr (heq ▸ hq)

theorem lruGet_maxSize {α : Type} (l : LruCache α) (k : String) :
    (lruGet l k).2.maxSize = l.maxSize := by
  unfold lruGet
  cases lruLookup l.entries k <;> rfl

theorem lruPutIfAbsent_maxSize {α : Type} (l : LruCache α) (k : String)
    (v : α) : (lruPutIfAbsent l k v).2.maxSize = l.maxSize := by
  unfold lruPutIfAbsent
  cases lruLookup l.entries k
  · dsimp only; split <;> rfl
  · rfl

/-- A due refresh on a negative-TTL entry records the configuration error and
changes nothing else the read path depends on. -/
theorem itemRefresh_negTTL (ci : SecretCacheItemState) (w : World) (now : Int)
    (httl : ci.obj.config.cacheItemTTL < 0)
    (hneed : itemIsRefreshNeeded ci now = true) :
    ∃ (ci2 : SecretCacheItemState) (w2 : World),
      itemRefresh ci w now = (ci2, w2) ∧
      ci2.obj.data = ci.obj.data ∧
      ci2.versions = ci.versions ∧
      ci2.obj.config = ci.obj.config ∧
      ci2.obj.err = some (.invalidConfig invalidTTLMsg) := by
  obtain ⟨vers, nrt0, obj⟩ := ci
  obtain ⟨cfg, sid, err0, ec0, rn0, nrt1, dat0⟩ := obj
  dsimp only at httl hneed ⊢
  unfold itemRefresh
  rw [if_neg (by simp [hneed])]
  unfold itemExecuteRefresh callDescribeSecret
  dsimp only
  rw [if_pos (show effectiveTTL cfg < 0 by
    unfold effectiveTTL
    rw [if_neg (by omega)]
    exact httl)]
  exact ⟨_, _, rfl, rfl, rfl, rfl, rfl⟩

/-- `secretCacheItem.getSecretValue` on a negative-TTL entry always yields the
configuration error, preserving the entry invariant. -/
theorem itemGetSecretValue_negTTL (item : SecretCacheItemState) (w : World)
    (now : Int) (stage : String) (hItem : NegItemOK item) :
    ∃ (item2 : SecretCacheItemState) (w2 : World),
      itemGetSecretValue item w now stage =
        (some (none, some (.invalidConfig invalidTTLMsg)), item2, w2) ∧
      NegItemOK item2 := by
  obtain ⟨hdata, httl, hflag, herr⟩ := hItem
  cases hneed : itemIsRefreshNeeded item now with
  | true =>
    obtain ⟨ci2, w2, heq, hd2, hv2, hc2, he2⟩ :=
      itemRefresh_negTTL item w now httl hneed
    unfold itemGetSecretValue
    rw [heq]
    dsimp only
    rw [itemGetVersion_nodata ci2 _ (by rw [hd2, hdata])]
    dsimp only
    rw [he2]
    exact ⟨ci2, w2, rfl, by rw [NegItemOK, hd2, hdata, hc2, he2]; simp [httl]⟩
  | false =>
    have hnoop : itemRefresh item w now = (item, w) := by
      unfold itemRefresh
      rw [if_pos (by simp [hneed])]
    cases herr2 : item.obj.err with
    | none =>
      exfalso
      have : itemIsRefreshNeeded item now = true := by
        unfold itemIsRefreshNeeded cacheObjIsRefreshNeeded
        rw [hflag herr2]
        rfl
      rw [hneed] at this
      exact Bool.false_ne_true this
    | some e =>
      have he : e = .invalidConfig invalidTTLMsg := by
        rcases herr with h | h
        · rw [herr2] at h; cases h
        · rw [herr2] at h; exact Option.some.inj h
      subst he
      unfold itemGetSecretValue
      rw [hnoop]
      dsimp only
      rw [itemGetVersion_nodata item _ hdata]
      dsimp only
      rw [herr2]
      exact ⟨item, w, rfl, hdata, httl, hflag, herr⟩

/-- One facade string read under the negative-TTL invariant: the configuration
error is returned and the invariant is preserved. -/
theorem getSecretString_negTTL (c : CacheState) (w : World) (now : Int)
    (secretId versionStage : String) (hInv : NegInv c) :
    ∃ (c2 : CacheState) (w2 : World),
      GetSecretStringWithStage c w now secretId versionStage =
        (some (.error (.invalidConfig invalidTTLMsg)), c2, w2) ∧
      NegInv c2 := by
  obtain ⟨httl, hmax, hall⟩ := hInv
  cases hv : lruLookup c.lru.entries secretId with
  | some item =>
    obtain ⟨item2, w2, heq, hok2⟩ :=
      itemGetSecretValue_negTTL item w now versionStage
        (hall _ (lruLookup_mem hv))
    unfold GetSecretStringWithStage
    rw [getCachedSecret_hit c secretId now item hv]
    dsimp only
    rw [heq]
    refine ⟨_, _, rfl, httl, hmax, ?_⟩
    intro p hp
    rcases mem_lruSetData hp with h | h
    · rw [h]; exact hok2
    · simp only [List.mem_cons] at h
      rcases h with h | h
      · rw [h]; exact hall _ (lruLookup_mem hv)
      · exact hall _ ((lruRemove_sublist c.lru.entries secretId).mem h)
  | none =>
    have hfreshOK : NegItemOK (newSecretCacheItem c.config secretId now) := by
      refine ⟨rfl, httl, fun _ => rfl, Or.inl rfl⟩
    have hins := lruLookup_putIfAbsent_self c.lru secretId
      (newSecretCacheItem c.config secretId now) hmax hv
    obtain ⟨item2, w2, heq, hok2⟩ :=
      itemGetSecretValue_negTTL (newSecretCacheItem c.config secretId now)
        w now versionStage hfreshOK
    unfold GetSecretStringWithStage getCachedSecret
    rw [show lruGet c.lru secretId = (none, c.lru) from by unfold lruGet; rw [hv]]
    dsimp only
    rw [show lruGet (lruPutIfAbsent c.lru secretId
        (newSecretCacheItem c.config secretId now)).2 secretId =
      (some (newSecretCacheItem c.config secretId now),
        { (lruPutIfAbsent c.lru secretId
            (newSecretCacheItem c.config secretId now)).2 with
          entries := (secretId, newSecretCacheItem c.config secretId now) ::
            lruRemove (lruPutIfAbsent c.lru secretId
              (newSecretCacheItem c.config secretId now)).2.entries secretId })
      from by unfold lruGet; rw [hins]]
    dsimp only
    rw [heq]
    refine ⟨_, _, rfl, httl, ?_, ?_⟩
    · rw [lruPutIfAbsent_maxSize]
      exact hmax
    · intro p hp
      rcases mem_lruSetData hp with h | h
      · rw [h]; exact hok2
      · simp only [List.mem_cons] at h
        rcases h with h | h
        · rw [h]; exact hfreshOK
        · rcases mem_lruPutIfAbsent
            ((lruRemove_sublist _ secretId).mem h) with h2 | h2
          · rw [h2]; exact hfreshOK
          · exact hall _ h2

/-- One facade binary read under the negative-TTL invariant. -/
theorem getSecretBinary_negTTL (c : CacheState) (w : World) (now : Int)
    (secretId versionStage : String) (hInv : NegInv c) :
    ∃ (c2 : CacheState) (w2 : World),
      GetSecretBinaryWithStage c w now secretId versionStage =
        (some (.error (.invalidConfig invalidTTLMsg)), c2, w2) ∧
      NegInv c2 := by
  obtain ⟨httl, hmax, hall⟩ := hInv
  cases hv : lruLookup c.lru.entries secretId with
  | some item =>
    obtain ⟨item2, w2, heq, hok2⟩ :=
      itemGetSecretValue_negTTL item w now versionStage
        (hall _ (lruLookup_mem hv))
    unfold GetSecretBinaryWithStage
    rw [getCachedSecret_hit c secretId now item hv]
    dsimp only
    rw [heq]
    refine ⟨_, _, rfl, httl, hmax, ?_⟩
    intro p hp
    rcases mem_lruSetData hp with h | h
    · rw [h]; exact hok2
    · simp only [List.mem_cons] at h
      rcases h with h | h
      · rw [h]; exact hall _ (lruLookup_mem hv)
      · exact hall _ ((lruRemove_sublist c.lru.entries secretId).mem h)
  | none =>
    have hfreshOK : NegItemOK (newSecretCacheItem c.config secretId now) := by
      refine ⟨rfl, httl, fun _ => rfl, Or.inl rfl⟩
    have hins := lruLookup_putIfAbsent_self c.lru secretId
      (newSecretCacheItem c.config secretId now) hmax hv
    obtain ⟨item2, w2, heq, hok2⟩ :=
      itemGetSecretValue_negTTL (newSecretCacheItem c.config secretId now)
        w now versionStage hfreshOK
    unfold GetSecretBinaryWithStage getCachedSecret
    rw [show lruGet c.lru secretId = (none, c.lru) from by unfold lruGet; rw [hv]]
    dsimp only
    rw [show lruGet (lruPutIfAbsent c.lru secretId
        (newSecretCacheItem c.config secretId now)).2 secretId =
      (some (newSecretCacheItem c.config secretId now),
        { (lruPutIfAbsent c.lru secretId
            (newSecretCacheItem c.config secretId now)).2 with
          entries := (secretId, newSecretCacheItem c.config secretId now) ::
            lruRemove (lruPutIfAbsent c.lru secretId
              (newSecretCacheItem c.config secretId now)).2.entries secretId })
      from by unfold lruGet; rw [hins]]
    dsimp only
    rw [heq]
    refine ⟨_, _, rfl, httl, ?_, ?_⟩
    · rw [lruPutIfAbsent_maxSize]
      exact hmax
    · intro p hp
      rcases mem_lruSetData hp with h | h
      · rw [h]; exact hok2
      · simp only [List.mem_cons] at h
        rcases h with h | h
        · rw [h]; exact hfreshOK
        · rcases mem_lruPutIfAbsent
            ((lruRemove_sublist _ secretId).mem h) with h2 | h2
          · rw [h2]; exact hfreshOK
          · exact hall _ h2

/-! ## Claim C6 -/

/-- C6: on a cache whose configured TTL is negative, every `GetSecretString`
and `GetSecretBinary` call returns the configuration error — the error
recorded by one failing call never suppresses the error of any later call,
and no call ever succeeds. -/
theorem claim_negative_ttl_always_errors :
    (∀ (c : CacheState) (w : World) (now : Int) (secretId : String),
      NegInv c →
      (GetSecretString c w now secretId).1 =
          some (.error (.invalidConfig invalidTTLMsg)) ∧
      (GetSecretBinary c w now secretId).1 =
          some (.error (.invalidConfig invalidTTLMsg))) ∧
    (∀ (ops : List (Int × Bool)) (secretId : String) (c : CacheState)
        (w : World),
      c.config.cacheItemTTL < 0 → 1 ≤ c.lru.maxSize → c.lru.entries = [] →
      ∀ r ∈ (runMixedCalls secretId c w ops).2.2,
        r = some (some (.invalidConfig invalidTTLMsg))) := by
  have hstep : ∀ (ops : List (Int × Bool)) (secretId : String)
      (c : CacheState) (w : World), NegInv c →
      ∀ r ∈ (runMixedCalls secretId c w ops).2.2,
        r = some (some (.invalidConfig invalidTTLMsg)) := by
    intro ops
    induction ops with
    | nil => intro secretId c w _ r hr; simp [runMixedCalls] at hr
    | cons op ops ih =>
      intro secretId c w hInv r hr
      obtain ⟨t, useBin⟩ := op
      cases useBin with
      | false =>
        obtain ⟨c2, w2, heq, hInv2⟩ :=
          getSecretString_negTTL c w t secretId DefaultVersionStage hInv
        unfold runMixedCalls at hr
        rw [if_neg (by simp)] at hr
        rw [show GetSecretString c w t secretId =
          (some (.error (.invalidConfig invalidTTLMsg)), c2, w2) from heq] at hr
        simp only [List.mem_cons] at hr
        rcases hr with hr | hr
        · rw [hr]; rfl
        · exact ih secretId c2 w2 hInv2 r hr
      | true =>
        obtain ⟨c2, w2, heq, hInv2⟩ :=
          getSecretBinary_negTTL c w t secretId DefaultVersionStage hInv
        unfold runMixedCalls at hr
        rw [if_pos (by simp)] at hr
        rw [show GetSecretBinary c w t secretId =
          (some (.error (.invalidConfig invalidTTLMsg)), c2, w2) from heq] at hr
        simp only [List.mem_cons] at hr
        rcases hr with hr | hr
        · rw [hr]; rfl
        · exact ih secretId c2 w2 hInv2 r hr
  refine ⟨?_, ?_⟩
  · intro c w now secretId hInv
    obtain ⟨c2, w2, heqS, _⟩ :=
      getSecretString_negTTL c w now secretId DefaultVersionStage hInv
    obtain ⟨c3, w3, heqB, _⟩ :=
      getSecretBinary_negTTL c w now secretId DefaultVersionStage hInv
    exact ⟨by rw [GetSecretString, heqS], by rw [GetSecretBinary, heqB]⟩
  · intro ops secretId c w httl hmax hempty
    exact hstep ops secretId c w ⟨httl, hmax, by rw [hempty]; simp⟩

/-- Witness for C6 at a concrete negative-TTL cache. -/
theorem claim_negative_ttl_always_errors_witness :
    (GetSecretString negSampleCache sampleWorld 0 "id").1 =
        some (.error (.invalidConfig invalidTTLMsg)) ∧
    (GetSecretBinary negSampleCache sampleWorld 0 "id").1 =
        some (.error (.invalidConfig invalidTTLMsg)) :=
  claim_negative_ttl_always_errors.1 negSampleCache sampleWorld 0 "id"
    ⟨by norm_num [negSampleCache, newCache],
     by norm_num [negSampleCache, newCache, newLRUCache, DefaultMaxCacheSize],
     by simp [negSampleCache, newCache, newLRUCache]⟩

/-! ## Claim C3: helper lemmas -/

theorem resolveVersionStage_nonempty (stage cfgStage : String)
    (h : stage ≠ "") : resolveVersionStage stage cfgStage = stage := by
  simp [resolveVersionStage, h]

theorem itemRefresh_noop (ci : SecretCacheItemState) (w : World) (now : Int)
    (h : itemIsRefreshNeeded ci now = false) : itemRefresh ci w now = (ci, w) := by
  unfold itemRefresh
  rw [if_pos (by simp [h])]

theorem itemIsRefreshNeeded_quiet (ci : SecretCacheItemState) (now : Int)
    (hf : ci.obj.refreshNeeded = false) (he : ci.obj.err = none)
    (ht : now < ci.nextRefreshTime) :
    itemIsRefreshNeeded ci now = false := by
  unfold itemIsRefreshNeeded
  rw [cacheObjIsRefreshNeeded_clear now hf he]
  simp only [Bool.false_eq_true, if_false, decide_eq_false_iff_not]
  omega

theorem getCachedSecret_empty (c : CacheState) (secretId : String) (now : Int)
    (hmax : 1 ≤ c.lru.maxSize) (hempty : c.lru.entries = []) :
    getCachedSecret c secretId now =
      (some (newSecretCacheItem c.config secretId now),
       { c with lru := { c.lru with
           entries := [(secretId, newSecretCacheItem c.config secretId now)] } }) := by
  obtain ⟨⟨entries, maxSize⟩, cfg⟩ := c
  dsimp only at hmax hempty ⊢
  subst hempty
  unfold getCachedSecret lruGet lruPutIfAbsent
  dsimp only [lruLookup]
  rw [if_neg (by simp only [List.length_cons, List.length_nil]; omega)]
  simp [lruLookup, lruRemove]

/-- A due secret-entry refresh that succeeds with effective TTL at least 2:
the metadata is stored, the error state cleared, the jittered next refresh
time scheduled, and one `DescribeSecret` call plus one random draw consumed. -/
theorem itemRefresh_success (ci : SecretCacheItemState) (w : World) (now : Int)
    (meta : DescribeSecretOutput)
    (hneed : itemIsRefreshNeeded ci now = true)
    (httl : 2 ≤ effectiveTTL ci.obj.config)
    (hdesc : w.backing.describe w.describeCalls ci.obj.secretId = .ok meta) :
    itemRefresh ci w now =
      ({ ci with
          nextRefreshTime := now +
            jitteredTTL (effectiveTTL ci.obj.config) (w.rand w.randCalls),
          obj := { ci.obj with
            refreshNeeded := false, data := some meta, err := none,
            errorCount := 0 } },
       { w with describeCalls := w.describeCalls + 1,
                randCalls := w.randCalls + 1 }) := by
  obtain ⟨vers, nrt0, obj⟩ := ci
  obtain ⟨cfg, sid, err0, ec0, rn0, nrt1, dat0⟩ := obj
  dsimp only at hneed httl hdesc ⊢
  unfold itemRefresh
  rw [if_neg (by simp [hneed])]
  unfold itemExecuteRefresh callDescribeSecret nextRand
  dsimp only
  rw [hdesc]
  rw [if_neg (by omega), if_neg (by omega)]

theorem versionRefresh_success (cv : CacheVersionState) (w : World) (now : Int)
    (out : GetSecretValueOutput)
    (hneed : versionIsRefreshNeeded cv now = true)
    (hok : w.backing.getValue w.getValueCalls cv.obj.secretId cv.versionId =
      .ok out) :
    versionRefresh cv w now =
      ({ cv with obj := { cv.obj with
          refreshNeeded := false, data := some out, err := none,
          errorCount := 0 } },
       { w with getValueCalls := w.getValueCalls + 1 }) := by
  obtain ⟨vid, obj⟩ := cv
  obtain ⟨cfg, sid, err0, ec0, rn0, nrt1, dat0⟩ := obj
  dsimp only at hneed hok ⊢
  unfold versionRefresh
  rw [if_neg (by simp [hneed])]
  unfold versionExecuteRefresh callGetSecretValue
  dsimp only
  rw [hok]

theorem itemGetVersion_missEmpty (ci : SecretCacheItemState)
    (stage vid : String)
    (hvid : getVersionIdOf ci.obj.data stage = some vid)
    (hmax : 1 ≤ ci.versions.maxSize)
    (hempty : ci.versions.entries = []) :
    itemGetVersion ci stage =
      ((true, some (newCacheVersion ci.obj.config ci.obj.secretId vid)),
       { ci with versions := { ci.versions with
           entries :=
             [(vid, newCacheVersion ci.obj.config ci.obj.secretId vid)] } }) := by
  obtain ⟨⟨ventries, vmax⟩, nrt, obj⟩ := ci
  dsimp only at hvid hmax hempty ⊢
  subst hempty
  unfold itemGetVersion lruGet lruPutIfAbsent
  rw [hvid]
  dsimp only [lruLookup]
  rw [if_neg (by simp only [List.length_cons, List.length_nil]; omega)]
  simp [lruLookup, lruRemove]

theorem lruSetData_single {α : Type} (k : String) (v0 v : α) (m : Int) :
    lruSetData ⟨[(k, v0)], m⟩ k v = ⟨[(k, v)], m⟩ := by
  simp [lruSetData]

/-- The first cold read: exactly one `DescribeSecret` call and one
`GetSecretValue` call are issued and the cache reaches the steady state. -/
theorem firstCall_getSecretString (cfg : CacheConfig) (rand : Nat → Nat)
    (meta : DescribeSecretOutput) (out : GetSecretValueOutput)
    (vid s secretId : String) (t1 : Int)
    (hmax : 1 ≤ cfg.maxCacheSize)
    (httl : 2 ≤ effectiveTTL cfg)
    (hvid : getVersionIdOf (some meta) DefaultVersionStage = some vid)
    (hs : out.secretString = some s) :
    GetSecretString (newCache cfg) (constWorld meta out rand) t1 secretId =
      (some (.ok s),
       steadyCache cfg secretId vid meta out
         (t1 + jitteredTTL (effectiveTTL cfg) (rand 0)) cfg.maxCacheSize,
       afterFirstWorld meta out rand) := by
  unfold GetSecretString GetSecretStringWithStage
  rw [getCachedSecret_empty (newCache cfg) secretId t1 hmax rfl]
  dsimp only
  unfold itemGetSecretValue
  rw [resolveVersionStage_nonempty _ _ (by decide)]
  rw [itemRefresh_success (newSecretCacheItem (newCache cfg).config secretId t1)
    (constWorld meta out rand) t1 meta (by rfl) httl (by rfl)]
  dsimp only
  rw [itemGetVersion_missEmpty _ DefaultVersionStage vid (by exact hvid)
    (by norm_num [newSecretCacheItem, newLRUCache]) (by rfl)]
  dsimp only
  unfold versionGetSecretValue
  rw [versionRefresh_success _ _ t1 out (by rfl) (by rfl)]
  dsimp only [newCacheVersion, newSecretCacheItem, newLRUCache, newCache]
  rw [lruSetData_single, lruSetData_single]
  rw [hs]
  rfl

/-- A steady-state read before the scheduled refresh time: served entirely
from the cache, no backing call, no state change. -/
theorem getSecretString_steady (cfg : CacheConfig) (w : World)
    (secretId vid s : String) (meta : DescribeSecretOutput)
    (out : GetSecretValueOutput) (T now M : Int)
    (hvid : getVersionIdOf (some meta) DefaultVersionStage = some vid)
    (hs : out.secretString = some s)
    (hnow : now < T) :
    GetSecretString (steadyCache cfg secretId vid meta out T M) w now
        secretId =
      (some (.ok s), steadyCache cfg secretId vid meta out T M, w) := by
  unfold GetSecretString GetSecretStringWithStage
  rw [getCachedSecret_hit _ secretId now
    (steadyItem cfg secretId vid meta out T) (by simp [steadyCache, lruLookup])]
  dsimp only [steadyCache, lruRemove]
  rw [if_pos rfl]
  unfold itemGetSecretValue
  rw [resolveVersionStage_nonempty _ _ (by decide)]
  rw [itemRefresh_noop _ w now
    (itemIsRefreshNeeded_quiet _ now (by rfl) (by rfl) (by exact hnow))]
  dsimp only
  rw [itemGetVersion_hit _ _ vid (steadyCv cfg secretId vid out)
    (by exact hvid) (by simp [steadyItem, lruLookup])]
  dsimp only [steadyItem, lruRemove]
  rw [if_pos rfl]
  rw [versionGetSecretValue_steady _ w now (by rfl) (by rfl)]
  dsimp only [steadyCv]
  rw [lruSetData_single, lruSetData_single]
  rw [hs]

/-- Iterating steady-state reads before the scheduled refresh time leaves the
cache and the world (in particular the call counters) unchanged and returns
the cached value every time. -/
theorem runGetSecretString_steady (cfg : CacheConfig) (w : World)
    (secretId vid s : String) (meta : DescribeSecretOutput)
    (out : GetSecretValueOutput) (T M : Int)
    (hvid : getVersionIdOf (some meta) DefaultVersionStage = some vid)
    (hs : out.secretString = some s) (ts : List Int)
    (hts : ∀ t ∈ ts, t < T) :
    runGetSecretString secretId (steadyCache cfg secretId vid meta out T M)
        w ts =
      (steadyCache cfg secretId vid meta out T M, w,
       ts.map fun _ => some (.ok s)) := by
  induction ts with
  | nil => rfl
  | cons t ts ih =>
    unfold runGetSecretString
    rw [getSecretString_steady cfg w secretId vid s meta out T t M hvid hs
      (hts t (by simp))]
    dsimp only
    rw [ih (fun t2 ht2 => hts t2 (by simp [ht2]))]
    rfl

/-! ## Claim C3 -/

/-- C3: starting from a fresh cache, a first `GetSecretString` read at `t1`
followed by any number of further reads of the same secret, all before the
jittered next scheduled refresh time and with constant backing responses,
issues exactly one `DescribeSecret` call and one `GetSecretValue` call in
total; every read (the first included) returns the cached value. -/
theorem claim_repeated_get_single_fetch (cfg : CacheConfig) (rand : Nat → Nat)
    (meta : DescribeSecretOutput) (out : GetSecretValueOutput)
    (vid s secretId : String) (t1 : Int) (ts : List Int)
    (hmax : 1 ≤ cfg.maxCacheSize)
    (httl : 2 ≤ effectiveTTL cfg)
    (hvid : getVersionIdOf (some meta) DefaultVersionStage = some vid)
    (hs : out.secretString = some s)
    (hts : ∀ t ∈ ts, t < t1 + jitteredTTL (effectiveTTL cfg) (rand 0)) :
    runGetSecretString secretId (newCache cfg) (constWorld meta out rand)
        (t1 :: ts) =
      (steadyCache cfg secretId vid meta out
         (t1 + jitteredTTL (effectiveTTL cfg) (rand 0)) cfg.maxCacheSize,
       afterFirstWorld meta out rand,
       (t1 :: ts).map fun _ => some (.ok s)) ∧
    (afterFirstWorld meta out rand).describeCalls = 1 ∧
    (afterFirstWorld meta out rand).getValueCalls = 1 := by
  refine ⟨?_, rfl, rfl⟩
  unfold runGetSecretString
  rw [firstCall_getSecretString cfg rand meta out vid s secretId t1
    hmax httl hvid hs]
  dsimp only
  rw [runGetSecretString_steady cfg (afterFirstWorld meta out rand)
    secretId vid s meta out _ _ hvid hs ts hts]
  rfl

/-- Witness for C3: two reads at times 0 and 1 against a concrete backing
service trigger one describe call and one get-value call. -/
theorem claim_repeated_get_single_fetch_witness :
    (runGetSecretString "id" (newCache {})
        (constWorld sampleMeta sampleOutS fun _ => 0) [0, 1] =
      (steadyCache {} "id" "v1" sampleMeta sampleOutS
         (0 + jitteredTTL (effectiveTTL {}) 0) ({} : CacheConfig).maxCacheSize,
       afterFirstWorld sampleMeta sampleOutS fun _ => 0,
       [0, 1].map fun _ => some (.ok "s3cret")) ∧
    (afterFirstWorld sampleMeta sampleOutS fun _ => 0).describeCalls = 1 ∧
    (afterFirstWorld sampleMeta sampleOutS fun _ => 0).getValueCalls = 1) :=
  claim_repeated_get_single_fetch {} (fun _ => 0) sampleMeta sampleOutS
    "v1" "s3cret" "id" 0 [1]
    (by norm_num [DefaultMaxCacheSize])
    (by norm_num [effectiveTTL, DefaultCacheItemTTL])
    rfl rfl (by decide)

/-! ## Claim C2: trace semantics with ghost access times

The eviction claim needs a notion of "least recently accessed".  The trace
semantics below runs the source operations (`lruGet` / `lruPutIfAbsent`)
while maintaining a ghost table of each key's last access step and a log of
evictions; the theorem ties the traced container back to plain `lruExec`
over the source operations. -/

/-- The traced container agrees with the source operation at every step. -/
theorem lruTraceStep_cache {α : Type} (st : LruTrace α) (op : LruOp α) :
    (lruTraceStep st op).cache = lruExecOp st.cache op := by
  cases op with
  | get k =>
    unfold lruTraceStep lruExecOp lruGet
    dsimp only
    cases hv : lruLookup st.cache.entries k <;> rfl
  | put k v =>
    unfold lruTraceStep lruExecOp lruPutIfAbsent
    dsimp only
    cases hv : lruLookup st.cache.entries k with
    | some v0 => rfl
    | none =>
      dsimp only
      split <;> rfl

theorem lruTraceRun_cache {α : Type} (st : LruTrace α) (ops : List (LruOp α)) :
    (lruTraceRun st ops).cache = lruExec st.cache ops := by
  induction ops generalizing st with
  | nil => rfl
  | cons op ops ih =>
    unfold lruTraceRun lruExec
    rw [← lruTraceStep_cache st op]
    exact ih (lruTraceStep st op)

theorem lruLookup_cons_self {α : Type} (A : List (String × α)) (k : String)
    (t : α) : lruLookup ((k, t) :: A) k = some t := by
  simp [lruLookup]

theorem lruLookup_cons_ne {α : Type} (A : List (String × α)) (k key : String)
    (t : α) (h : key ≠ k) :
    lruLookup ((k, t) :: A) key = lruLookup A key := by
  simp only [lruLookup]
  rw [if_neg (by exact fun hk => h hk.symm)]

/-- Consing a fresh-keyed entry with the current step preserves the ordering
invariants. -/
theorem consKey_inv {α : Type} {E : List (String × α)}
    {A : List (String × Nat)} {n : Nat} {k : String} {v : α}
    (hkeys : ∀ p ∈ E, p.1 ≠ k)
    (h1 : ∀ p ∈ E, ∃ t, lruLookup A p.1 = some t ∧ t < n)
    (h2 : (E.map Prod.fst).Nodup)
    (h3 : E.Pairwise (RAcc A)) :
    (∀ p ∈ (k, v) :: E, ∃ t,
      lruLookup ((k, n) :: A) p.1 = some t ∧ t < n + 1) ∧
    (((k, v) :: E).map Prod.fst).Nodup ∧
    ((k, v) :: E).Pairwise (RAcc ((k, n) :: A)) := by
  refine ⟨?_, ?_, ?_⟩
  · intro p hp
    rcases List.mem_cons.mp hp with hp | hp
    · refine ⟨n, ?_, Nat.lt_succ_self n⟩
      rw [hp]
      exact lruLookup_cons_self A k n
    · obtain ⟨t, ht, htn⟩ := h1 p hp
      exact ⟨t, by rw [lruLookup_cons_ne A k p.1 n (hkeys p hp)]; exact ht,
        Nat.lt_succ_of_lt htn⟩
  · simp only [List.map_cons, List.nodup_cons]
    refine ⟨fun hk => ?_, h2⟩
    obtain ⟨p, hp, hpk⟩ := List.mem_map.mp hk
    exact hkeys p hp hpk
  · refine List.Pairwise.cons ?_ ?_
    · intro b hb ta tb hta htb
      rw [lruLookup_cons_self A k n] at hta
      rw [lruLookup_cons_ne A k b.1 n (hkeys b hb)] at htb
      obtain ⟨t, ht, htn⟩ := h1 b hb
      rw [ht] at htb
      cases hta
      cases htb
      exact htn
    · refine h3.imp_of_mem ?_
      intro a b ha hb hR ta tb hta htb
      rw [lruLookup_cons_ne A k a.1 n (hkeys a ha)] at hta
      rw [lruLookup_cons_ne A k b.1 n (hkeys b hb)] at htb
      exact hR ta tb hta htb

/-- Preservation of the trace invariant by one traced operation. -/
theorem lruTraceStep_ok {α : Type} (st : LruTrace α) (op : LruOp α)
    (h : TraceOK st) : TraceOK (lruTraceStep st op) := by
  obtain ⟨h1, h2, h3, hlog⟩ := h
  cases op with
  | get k =>
    unfold lruTraceStep
    dsimp only
    cases hv : lruLookup st.cache.entries k with
    | none =>
      refine ⟨?_, h2, h3, hlog⟩
      intro p hp
      obtain ⟨t, ht, htn⟩ := h1 p hp
      exact ⟨t, ht, Nat.lt_succ_of_lt htn⟩
    | some v =>
      have hkeys : ∀ p ∈ lruRemove st.cache.entries k, p.1 ≠ k := by
        intro p hp
        refine (mem_lruRemove_ne h2 hp).2 ?_
        rw [hv]
        simp
      have hsub := lruRemove_sublist st.cache.entries k
      obtain ⟨g1, g2, g3⟩ := consKey_inv hkeys
        (fun p hp => h1 p (hsub.mem hp))
        (h2.sublist (hsub.map Prod.fst))
        (h3.sublist hsub)
      exact ⟨g1, g2, g3, hlog⟩
  | put k v =>
    unfold lruTraceStep
    dsimp only
    cases hv : lruLookup st.cache.entries k with
    | some v0 =>
      refine ⟨?_, h2, h3, hlog⟩
      intro p hp
      obtain ⟨t, ht, htn⟩ := h1 p hp
      exact ⟨t, ht, Nat.lt_succ_of_lt htn⟩
    | none =>
      have hkeys : ∀ p ∈ st.cache.entries, p.1 ≠ k :=
        lruLookup_eq_none_iff.mp hv
      obtain ⟨g1, g2, g3⟩ := consKey_inv (v := v) hkeys h1 h2 h3
      dsimp only
      split
      · have hne : ((k, v) :: st.cache.entries) ≠ [] := List.cons_ne_nil _ _
        have hsub := List.dropLast_sublist ((k, v) :: st.cache.entries)
        refine ⟨?_, ?_, ?_, ?_⟩
        · intro p hp
          exact g1 p (hsub.mem hp)
        · exact g2.sublist (hsub.map Prod.fst)
        · exact g3.sublist hsub
        · intro r hr
          rcases List.mem_cons.mp hr with hr | hr
          · subst hr
            refine ⟨List.getLast_mem hne, fun p hp => ?_, ?_⟩
            · obtain ⟨t, ht, _⟩ := g1 p hp
              exact ⟨t, ht⟩
            · intro p hp hpk tp te htp hte
              have hsplit := List.dropLast_append_getLast hne
              have hmem2 : p ∈ ((k, v) :: st.cache.entries).dropLast ++
                  [((k, v) :: st.cache.entries).getLast hne] := by
                rw [hsplit]; exact hp
              rcases List.mem_append.mp hmem2 with hp2 | hp2
              · have g3' : (((k, v) :: st.cache.entries).dropLast ++
                    [((k, v) :: st.cache.entries).getLast hne]).Pairwise
                    (RAcc ((k, st.step) :: st.acc)) := by
                  rw [hsplit]; exact g3
                have := (List.pairwise_append.mp g3').2.2 p hp2
                  (((k, v) :: st.cache.entries).getLast hne) (by simp)
                exact this tp te htp hte
              · exact absurd (by rw [List.mem_singleton.mp hp2]) hpk
          · exact hlog r hr
      · exact ⟨g1, g2, g3, hlog⟩

theorem lruTraceRun_ok {α : Type} (st : LruTrace α) (ops : List (LruOp α))
    (h : TraceOK st) : TraceOK (lruTraceRun st ops) := by
  induction ops generalizing st with
  | nil => exact h
  | cons op ops ih => exact ih (lruTraceStep st op) (lruTraceStep_ok st op h)

/-- Capacity preservation for one source operation. -/
theorem lruExecOp_length {α : Type} (l : LruCache α) (op : LruOp α)
    (h : (l.entries.length : Int) ≤ l.maxSize) :
    ((lruExecOp l op).entries.length : Int) ≤ l.maxSize ∧
    (lruExecOp l op).maxSize = l.maxSize := by
  cases op with
  | get k =>
    unfold lruExecOp lruGet
    dsimp only
    cases hv : lruLookup l.entries k with
    | none => exact ⟨h, rfl⟩
    | some v =>
      refine ⟨?_, rfl⟩
      dsimp only
      simp only [List.length_cons]
      have := lruRemove_length hv
      omega
  | put k v =>
    unfold lruExecOp lruPutIfAbsent
    dsimp only
    cases hv : lruLookup l.entries k with
    | some v0 => exact ⟨h, rfl⟩
    | none =>
      dsimp only
      split
      · refine ⟨?_, rfl⟩
        rw [List.length_dropLast]
        simp only [List.length_cons]
        omega
      · rename_i hlen
        refine ⟨?_, rfl⟩
        simp only [List.length_cons] at hlen ⊢
        omega

/-- Capacity preservation along a whole run. -/
theorem lruExec_length {α : Type} (l : LruCache α) (ops : List (LruOp α))
    (h : (l.entries.length : Int) ≤ l.maxSize) :
    ((lruExec l ops).entries.length : Int) ≤ l.maxSize ∧
    (lruExec l ops).maxSize = l.maxSize := by
  induction ops generalizing l with
  | nil => exact ⟨h, rfl⟩
  | cons op ops ih =>
    unfold lruExec
    obtain ⟨h1, h2⟩ := lruExecOp_length l op h
    have h1b : ((lruExecOp l op).entries.length : Int) ≤
        (lruExecOp l op).maxSize := by rw [h2]; exact h1
    obtain ⟨g1, g2⟩ := ih (lruExecOp l op) h1b
    exact ⟨h2 ▸ g1, g2.trans h2⟩

/-! ## Claim C2 -/

/-- C2: for every capacity at least 0 and every sequence of `get` and
`putIfAbsent` operations from the empty container, the number of stored
entries never exceeds the capacity after any prefix of the sequence; the
traced execution agrees with the source operations at every step, and every
eviction it logs removes an entry that was present and whose last access (by
get or insertion) is strictly older than that of every other entry present at
that moment. -/
theorem claim_lru_capacity_eviction (α : Type) (cap : Int) (hcap : 0 ≤ cap)
    (ops : List (LruOp α)) :
    (∀ pre suf : List (LruOp α), ops = pre ++ suf →
      ((lruExec (newLRUCache α cap) pre).entries.length : Int) ≤ cap) ∧
    (lruTraceRun (initTrace α cap) ops).cache =
      lruExec (newLRUCache α cap) ops ∧
    (∀ r ∈ (lruTraceRun (initTrace α cap) ops).evLog, EvictOK r) := by
  refine ⟨?_, lruTraceRun_cache _ _, ?_⟩
  · intro pre suf hsplit
    exact (lruExec_length (newLRUCache α cap) pre
      (by simpa [newLRUCache] using hcap)).1
  · have hinit : TraceOK (initTrace α cap) := by
      refine ⟨?_, ?_, ?_, ?_⟩ <;> simp [initTrace, newLRUCache]
    exact (lruTraceRun_ok (initTrace α cap) ops hinit).2.2.2

/-- Witness for C2: a concrete run in which the logged eviction removes "b",
the least recently accessed entry. -/
theorem claim_lru_capacity_eviction_witness :
    ((lruExec (newLRUCache Nat 2) witnessOps).entries.length : Int) ≤ 2 ∧
    EvictOK (EvictRecord.mk (("b" : String), (2 : Nat))
      [("c", 3), ("a", 1), ("b", 2)]
      [("c", 3), ("a", 2), ("b", 1), ("a", 0)]) :=
  ⟨(claim_lru_capacity_eviction Nat 2 (by norm_num) witnessOps).1
      witnessOps [] (by simp),
   (claim_lru_capacity_eviction Nat 2 (by norm_num) witnessOps).2.2
      (EvictRecord.mk (("b" : String), (2 : Nat))
        [("c", 3), ("a", 1), ("b", 2)]
        [("c", 3), ("a", 2), ("b", 1), ("a", 0)])
      (by decide)⟩

end SecretCache
